import Mathlib

/-!
# SafeContract static-analysis engine: shallow embedding and verification

This file embeds the flow-aware Solidity static-analysis engine of the
SafeContract repository (`src/lib/audit.ts`) in Lean 4 and proves the
specification claims about it.

JavaScript strings are modelled as `List Char`; a source unit is split on
the newline character exactly as `String.prototype.split("\n")` does.
JavaScript's `String.prototype.includes`, `startsWith`, `trim`,
`toLowerCase` and the few regular expressions appearing in the source are
modelled by executable functions over `List Char` that mirror their
semantics on the patterns actually used.
-/

namespace SafeContract

/-- Text is modelled as a list of characters (a JavaScript string). -/
abbrev Str := List Char

/-- JavaScript whitespace (the ASCII part of `\s`): space, tab, newline,
carriage return, vertical tab, form feed. -/
def isJsWs (c : Char) : Bool :=
  c = ' ' || c = '\t' || c = '\n' || c = '\r' || c = '\x0b' || c = '\x0c'

/-- `String.prototype.trim()`: drop whitespace from both ends. -/
def jsTrim (s : Str) : Str :=
  ((s.dropWhile isJsWs).reverse.dropWhile isJsWs).reverse

/-- `s.includes(pat)` — substring containment, by trying the pattern as a
prefix at every start position. -/
def includesStr : Str → Str → Bool
  | s, pat =>
    match s with
    | [] => pat.isEmpty
    | c :: cs => pat.isPrefixOf (c :: cs) || includesStr cs pat

/-- `s.startsWith(pat)`. -/
def startsWithStr (s pat : Str) : Bool :=
  pat.isPrefixOf s

/-- `code.split("\n")`: split on the newline character.  Always returns a
non-empty list; a trailing newline yields a trailing empty piece. -/
def splitNl : Str → List Str
  | [] => [[]]
  | c :: cs =>
    if c = '\n' then [] :: splitNl cs
    else
      match splitNl cs with
      | [] => [[c]]
      | h :: t => (c :: h) :: t

/-- Join lines back, appending a newline after every line (the shape
produced by the JavaScript accumulation `body += line + "\n"`). -/
def joinNlAfter : List Str → Str
  | [] => []
  | l :: ls => l ++ '\n' :: joinNlAfter ls

/-- ASCII `toLowerCase` (all characters appearing in finding titles are
ASCII). -/
def lcChar (c : Char) : Char :=
  if 'A' ≤ c ∧ c ≤ 'Z' then Char.ofNat (c.toNat + 32) else c

/-- `s.toLowerCase()`. -/
def lcStr (s : Str) : Str :=
  s.map lcChar

/-! ## Data model (from `src/lib/schema.ts` usage in `audit.ts`) -/

/-- Severity of a finding: `"low" | "medium" | "high" | "critical"`. -/
inductive VulnerabilitySeverity where
  | low
  | medium
  | high
  | critical
deriving DecidableEq, Repr

/-- `codeContext` of a finding; the fallback informational finding uses the
empty object `{}`, modelled as all fields `none`. -/
structure CodeContext where
  lineStart : Option Nat := none
  lineEnd : Option Nat := none
  snippet : Option Str := none
deriving DecidableEq, Repr

/-- One reported issue instance (`Vulnerability` in the schema). -/
structure Vulnerability where
  id : Str
  title : Str
  severity : VulnerabilitySeverity
  description : Str
  codeContext : CodeContext
  suggestedFix : Str
deriving DecidableEq, Repr

/-- The metrics object computed by `calculateMetrics`. -/
structure Metrics where
  totalVulnerabilities : Nat
  criticalCount : Nat
  highCount : Nat
  mediumCount : Nat
  lowCount : Nat
  linesOfCode : Nat
  functionCount : Nat
deriving DecidableEq, Repr

/-- The categorical risk level returned by `getRiskLevel`. -/
inductive RiskLevel where
  | low
  | medium
  | high
  | critical
deriving DecidableEq, Repr

/-- Rank of a risk level in the order low < medium < high < critical. -/
def RiskLevel.rank : RiskLevel → Nat
  | .low => 0
  | .medium => 1
  | .high => 2
  | .critical => 3

/-- The report root object. -/
structure AuditResult where
  riskScore : Nat
  riskLevel : RiskLevel
  summary : Str
  vulnerabilities : List Vulnerability
  metrics : Metrics
deriving DecidableEq, Repr

/-- Input mode tag of a request.  `schema.ts` itself is not part of the
analysed sources; the two values are the ones used by `audit.ts`
(`inputType === "address"`) and by the callers (`inputType: "solidity"`). -/
inductive InputType where
  | solidity
  | address
deriving DecidableEq, Repr

/-- An audit request: raw source text plus input mode. -/
structure AuditRequest where
  code : Str
  inputType : InputType
deriving DecidableEq, Repr

/-- Function visibility; `priv` stands for the source value `"private"`. -/
inductive Visibility where
  | public
  | external
  | internal
  | priv
deriving DecidableEq, Repr

/-- One segmented function record (`FunctionModel` in `audit.ts`).
`body` is the accumulated text `line + "\n"` for every line of the
function, exactly as built by `parseFunctions`. -/
structure FunctionModel where
  name : Str
  visibility : Visibility
  payable : Bool
  body : Str
  lineStart : Nat
  lineEnd : Nat
deriving DecidableEq, Repr

/-! ## Function segmenter (`parseFunctions`)

The declaration-header regular expression
`function\s+(\w+)\s*\([^)]*\)\s*(public|external|internal|private)?\s*(payable)?`
is deterministic (every quantified class is disjoint from what follows it),
so it is modelled by maximal-munch scanning, tried at every start position
from the left as `String.prototype.match` does. -/

/-- `\w` word characters. -/
def isWordChar (c : Char) : Bool :=
  ('a' ≤ c && c ≤ 'z') || ('A' ≤ c && c ≤ 'Z') || ('0' ≤ c && c ≤ '9') || c = '_'

/-- Result of a successful declaration-header match: captured name,
captured visibility group (if present) and whether `payable` matched. -/
structure DeclMatch where
  name : Str
  visibility : Option Visibility
  payable : Bool
deriving DecidableEq, Repr

/-- Try the optional visibility alternation `(public|external|internal|private)?`
at the head of `s`; returns the captured group and the rest. -/
def matchVisibility (s : Str) : Option Visibility × Str :=
  if startsWithStr s "public".data then (some .public, s.drop 6)
  else if startsWithStr s "external".data then (some .external, s.drop 8)
  else if startsWithStr s "internal".data then (some .internal, s.drop 8)
  else if startsWithStr s "private".data then (some .priv, s.drop 7)
  else (none, s)

/-- Try the full header pattern anchored at the start of `s`. -/
def matchFunctionDeclAt (s : Str) : Option DeclMatch :=
  if startsWithStr s "function".data then
    let r1 := s.drop 8
    let ws1 := r1.takeWhile isJsWs
    if ws1.isEmpty then none
    else
      let r2 := r1.dropWhile isJsWs
      let nm := r2.takeWhile isWordChar
      if nm.isEmpty then none
      else
        let r3 := (r2.dropWhile isWordChar).dropWhile isJsWs
        match r3 with
        | '(' :: r4 =>
          let r5 := r4.dropWhile (fun c => !(c = ')'))
          match r5 with
          | ')' :: r6 =>
            let (vis, r7) := matchVisibility (r6.dropWhile isJsWs)
            let r8 := r7.dropWhile isJsWs
            some ⟨nm, vis, startsWithStr r8 "payable".data⟩
          | _ => none
        | _ => none
  else none

/-- Leftmost match of the header pattern anywhere in `s`
(`trimmed.match(...)`). -/
def matchFunctionDecl : Str → Option DeclMatch
  | [] => none
  | c :: cs =>
    match matchFunctionDeclAt (c :: cs) with
    | some m => some m
    | none => matchFunctionDecl cs

/-- Net brace count of a line: `+1` per `{`, `-1` per `}` (the loop
`for (const char of line)` in `parseFunctions`). -/
def braceDelta (line : Str) : Int :=
  line.foldl (fun d c => if c = '\x7b' then d + 1 else if c = '\x7d' then d - 1 else d) 0

/-- The partially built function record (JS `currentFunction`). -/
structure PartialFn where
  name : Str
  visibility : Visibility
  payable : Bool
  body : Str
  lineStart : Nat
deriving DecidableEq, Repr

/-- One step of the in-function part of the `parseFunctions` loop: count
braces of the raw line, append `line + "\n"` to the body, and close the
record when the depth returns to zero on a line whose trimmed form
contains `}`. -/
def stepInFunction (line : Str) (i : Nat) (pf : PartialFn) (depth : Int)
    (acc : List FunctionModel) :
    (Option (PartialFn × Int)) × List FunctionModel :=
  let depth1 := depth + braceDelta line
  let pf1 : PartialFn := { pf with body := pf.body ++ line ++ ['\n'] }
  if depth1 = 0 ∧ includesStr (jsTrim line) "\x7d".data then
    (none, acc ++ [⟨pf1.name, pf1.visibility, pf1.payable, pf1.body, pf1.lineStart, i + 1⟩])
  else
    (some (pf1, depth1), acc)

/-- The main loop of `parseFunctions`, structurally recursive over the
lines; `i` is the 0-based index of the current line. -/
def parseAux : List Str → Nat → Option (PartialFn × Int) → List FunctionModel →
    List FunctionModel
  | [], _, _, acc => acc
  | line :: rest, i, st, acc =>
    match st with
    | none =>
      match matchFunctionDecl (jsTrim line) with
      | some m =>
        let pf : PartialFn := ⟨m.name, m.visibility.getD .public, m.payable, [], i + 1⟩
        let (st1, acc1) := stepInFunction line i pf 0 acc
        parseAux rest (i + 1) st1 acc1
      | none => parseAux rest (i + 1) none acc
    | some (pf, depth) =>
      let (st1, acc1) := stepInFunction line i pf depth acc
      parseAux rest (i + 1) st1 acc1

/-- `parseFunctions`: heuristic brace-depth segmentation of the source into
function records. -/
def parseFunctions (code : Str) : List FunctionModel :=
  parseAux (splitNl code) 0 none []

/-! ## Detector battery (`detectVulnerabilities`) -/

/-- Decimal rendering of a line number (JS number-to-string coercion). -/
def natToStr (n : Nat) : Str :=
  (toString n).data

/-- `func.body.split("\n")` — the per-function line array. -/
def funcLines (f : FunctionModel) : List Str :=
  splitNl f.body

/-- Comment skip of the reentrancy scan:
`trimmed.startsWith("//") || trimmed.startsWith("*") || trimmed.startsWith("/*")`. -/
def isCommentLine (t : Str) : Bool :=
  startsWithStr t "//".data || startsWithStr t "*".data || startsWithStr t "/*".data

/-- The external-call regular expression of the reentrancy detector:
`\.call\{|\.call\(|\.send\(|\.transfer\(|\.delegatecall\(|\.staticcall\(`. -/
def callTestFull (t : Str) : Bool :=
  includesStr t ".call\x7b".data || includesStr t ".call(".data ||
  includesStr t ".send(".data || includesStr t ".transfer(".data ||
  includesStr t ".delegatecall(".data || includesStr t ".staticcall(".data

/-- Helper for `...\[.*\]\s*=`: after the opening bracket key, some later
`]` must be followed by optional whitespace and then `=`. -/
def bracketCloseThenEq : Str → Bool
  | [] => false
  | c :: cs =>
    (c = ']' &&
      (match cs.dropWhile isJsWs with
       | '=' :: _ => true
       | _ => false)) ||
    bracketCloseThenEq cs

/-- Occurrence of `key` followed (with anything in between) by `]`,
optional whitespace and `=` — the shape `key.*\]\s*=`. -/
def bracketAssignTest (key : Str) : Str → Bool
  | [] => false
  | c :: cs =>
    (key.isPrefixOf (c :: cs) && bracketCloseThenEq ((c :: cs).drop key.length)) ||
    bracketAssignTest key cs

/-- The state-update regular expression
`balances\[.*\]\s*=|mapping\[.*\]\s*=|\+\+|\-\-`. -/
def stateRegexTest (t : Str) : Bool :=
  bracketAssignTest "balances[".data t || bracketAssignTest "mapping[".data t ||
  includesStr t "++".data || includesStr t "--".data

/-- The `isStateUpdate` test of the reentrancy detector. -/
def isStateUpdate (t : Str) : Bool :=
  (includesStr t "=".data &&
   !includesStr t "==".data &&
   !includesStr t "!=".data &&
   !includesStr t "memory".data &&
   !includesStr t "calldata".data &&
   !includesStr t "if".data &&
   !includesStr t "require".data &&
   !includesStr t "assert".data) ||
  stateRegexTest t

/-- The per-function line scan of the reentrancy detector: skip comment
lines, record `func.lineStart + i` for lines whose trimmed form satisfies
`p`; `n` starts at `func.lineStart`. -/
def reentrancyScan (p : Str → Bool) : List Str → Nat → List Nat
  | [], _ => []
  | l :: rest, n =>
    let t := jsTrim l
    if isCommentLine t then reentrancyScan p rest (n + 1)
    else if p t then n :: reentrancyScan p rest (n + 1)
    else reentrancyScan p rest (n + 1)

/-- `externalCallLines` of one function. -/
def externalCallLines (f : FunctionModel) : List Nat :=
  reentrancyScan callTestFull (funcLines f) f.lineStart

/-- `stateUpdateLines` of one function. -/
def stateUpdateLines (f : FunctionModel) : List Nat :=
  reentrancyScan isStateUpdate (funcLines f) f.lineStart

/-- `hasReentrancyGuard`:
`func.body.includes("nonReentrant") || code.includes("ReentrancyGuard")`. -/
def reentrancyGuard (code : Str) (f : FunctionModel) : Bool :=
  includesStr f.body "nonReentrant".data || includesStr code "ReentrancyGuard".data

/-- Title of reentrancy findings. -/
def reentrancyTitle : Str :=
  "Reentrancy Vulnerability: External Call Before State Update".data

/-- Title of unchecked-external-call findings. -/
def uncheckedTitle : Str :=
  "Unchecked External Call".data

/-- Title of overflow findings. -/
def overflowTitle : Str :=
  "Potential Integer Overflow/Underflow (Solidity <0.8.0)".data

/-- Title of plain missing-access-control findings. -/
def accessTitle : Str :=
  "Missing Access Control".data

/-- Title of missing-access-control findings on payable functions. -/
def accessPayableTitle : Str :=
  "Missing Access Control on Payable Function".data

/-- Title of the fallback informational finding. -/
def infoTitle : Str :=
  "No Critical Issues Detected".data

/-- `Array.prototype.slice(a, b)`. -/
def sliceList (a b : Nat) (ls : List Str) : List Str :=
  (ls.drop a).take (b - a)

/-- `Array.prototype.join("\n")`. -/
def joinNlBetween : List Str → Str
  | [] => []
  | [l] => l
  | l :: ls => l ++ '\n' :: joinNlBetween ls

/-- Description text of a reentrancy finding (the `â†’` mojibake is verbatim
from the source file). -/
def reentrancyDescription (callLine updateLine : Nat) : Str :=
  ("This function makes external calls before updating state variables. This pattern allows reentrancy attacks where an attacker recursively calls the function to drain funds or manipulate state before the balance is updated. The vulnerable pattern: external call (line ").data ++
  natToStr callLine ++ (") â†’ state update (line ").data ++ natToStr updateLine ++ (").").data

/-- Remediation text of a reentrancy finding. -/
def reentrancyFixText : Str :=
  ("Follow the checks-effects-interactions pattern: (1) Validate inputs (checks), (2) Update state (effects) BEFORE external calls, (3) Then make external calls (interactions). Example:\n\n```solidity\nfunction withdraw(uint256 amount) public \x7b\n  require(balances[msg.sender] >= amount, \"Insufficient balance\");\n  \n  // Update state FIRST\n  balances[msg.sender] -= amount;\n  \n  // Then make external call\n  (bool success, ) = msg.sender.call\x7bvalue: amount\x7d(\"\");\n  require(success, \"Transfer failed\");\n\x7d\n```\n\nAlternatively, use OpenZeppelin\x27s ReentrancyGuard: add `nonReentrant` modifier to the function.").data

/-- Build one reentrancy finding; `count` is the number of findings already
collected (`vulnerabilities.length`). -/
def mkReentrancyVuln (count callLine updateLine : Nat) (guard : Bool)
    (fl : List Str) (ls : Nat) : Vulnerability :=
  { id := "reentrancy-flow-".data ++ natToStr (count + 1)
  , title := reentrancyTitle
  , severity := if guard then .medium else .high
  , description := reentrancyDescription callLine updateLine
  , codeContext :=
      { lineStart := some callLine
      , lineEnd := some updateLine
      , snippet := some (jsTrim (joinNlBetween (sliceList (callLine - ls) (updateLine - ls + 1) fl))) }
  , suggestedFix := reentrancyFixText }

/-- The duplicate test of the reentrancy detector. -/
def isReentrancyDup (acc : List Vulnerability) (callLine : Nat) : Bool :=
  acc.any (fun v =>
    includesStr (lcStr v.title) "reentrancy".data && v.codeContext.lineStart == some callLine)

/-- The nested loop over `externalCallLines`/`stateUpdateLines`: for each
call line, the first later state-update line (if any) triggers a push
unless an equal-location reentrancy finding already exists. -/
def reentrancyLoop (fl : List Str) (ls : Nat) (guard : Bool) (updates : List Nat) :
    List Nat → List Vulnerability → List Vulnerability
  | [], acc => acc
  | c :: cs, acc =>
    match updates.find? (fun u => decide (c < u)) with
    | none => reentrancyLoop fl ls guard updates cs acc
    | some u =>
      let acc1 :=
        if isReentrancyDup acc c then acc
        else acc ++ [mkReentrancyVuln acc.length c u guard fl ls]
      reentrancyLoop fl ls guard updates cs acc1

/-- Reentrancy detector: one `reentrancyLoop` pass per segmented function. -/
def reentrancyPhase (code : Str) : List FunctionModel → List Vulnerability → List Vulnerability
  | [], acc => acc
  | f :: fs, acc =>
    reentrancyPhase code fs
      (reentrancyLoop (funcLines f) f.lineStart (reentrancyGuard code f) (stateUpdateLines f)
        (externalCallLines f) acc)

/-- The external-call regular expression of the unchecked-call detector:
`\.call\{|\.call\(|\.send\(|\.transfer\(`. -/
def uncheckedCallTest (t : Str) : Bool :=
  includesStr t ".call\x7b".data || includesStr t ".call(".data ||
  includesStr t ".send(".data || includesStr t ".transfer(".data

/-- `hasReturnCheck` on the same trimmed line. -/
def hasReturnCheck (t : Str) : Bool :=
  includesStr t "require".data || includesStr t "if".data ||
  includesStr t "bool success".data || includesStr t "(bool,".data

/-- Helper for `require\s*\(.*success` / `if\s*\(.*success`: after the
keyword, optional whitespace, then `(`, then `success` somewhere later. -/
def wsThenParenThenSuccess (rest : Str) : Bool :=
  match rest.dropWhile isJsWs with
  | '(' :: r => includesStr r "success".data
  | _ => false

/-- Occurrence of `key` followed by `\s*\(.*success` anywhere in the line. -/
def keyThenParenSuccess (key : Str) : Str → Bool
  | [] => false
  | c :: cs =>
    (key.isPrefixOf (c :: cs) && wsThenParenThenSuccess ((c :: cs).drop key.length)) ||
    keyThenParenSuccess key cs

/-- The later-check regular expression
`require\s*\(.*success|if\s*\(.*success` applied to one raw line. -/
def laterCheckTest (line : Str) : Bool :=
  keyThenParenSuccess "require".data line || keyThenParenSuccess "if".data line

/-- Build one unchecked-external-call finding. -/
def mkUncheckedVuln (count n : Nat) (t : Str) : Vulnerability :=
  { id := "external-call-".data ++ natToStr (count + 1)
  , title := uncheckedTitle
  , severity := .high
  , description := ("External call detected without checking return value. Failed calls could be silently ignored, leading to unexpected behavior or loss of funds.").data
  , codeContext := { lineStart := some n, lineEnd := some n, snippet := some t }
  , suggestedFix := ("Always check the return value of external calls. Use pattern: (bool success, ) = recipient.call\x7bvalue: amount\x7d(\"\"); require(success, \"Transfer failed\"); Or use transfer()/send() which revert on failure.").data }

/-- The per-raw-line loop of the unchecked-call detector; `n` is the 1-based
line number and the lookahead window is the next (up to) 5 raw lines. -/
def uncheckedPhaseAux : List Str → Nat → List Vulnerability → List Vulnerability
  | [], _, acc => acc
  | l :: rest, n, acc =>
    let t := jsTrim l
    let acc1 :=
      if uncheckedCallTest t then
        if hasReturnCheck t || (rest.take 5).any laterCheckTest then acc
        else acc ++ [mkUncheckedVuln acc.length n t]
      else acc
    uncheckedPhaseAux rest (n + 1) acc1

/-- Unchecked-external-call detector over the raw source lines. -/
def uncheckedPhase (lines : List Str) (acc : List Vulnerability) : List Vulnerability :=
  uncheckedPhaseAux lines 1 acc

/-- `hasSolidity08Plus`: the three pragma substrings that disable the
overflow detector. -/
def hasSolidity08Plus (code : Str) : Bool :=
  includesStr code "pragma solidity ^0.8".data ||
  includesStr code "pragma solidity >=0.8".data ||
  includesStr code "pragma solidity >0.8".data

/-- Lines skipped by the overflow scan (`//` comments, pragma, import). -/
def overflowSkipLine (t : Str) : Bool :=
  startsWithStr t "//".data || startsWithStr t "pragma".data || startsWithStr t "import".data

/-- `hasArithmetic`: `++`, `+=`, `-=`, or `*` together with `=`. -/
def overflowArithTest (t : Str) : Bool :=
  includesStr t "++".data || includesStr t "+=".data || includesStr t "-=".data ||
  (includesStr t "*".data && includesStr t "=".data)

/-- The inner state-variable-operation test: `=` together with `;` or `}`. -/
def overflowInnerTest (t : Str) : Bool :=
  includesStr t "=".data && (includesStr t ";".data || includesStr t "\x7d".data)

/-- Build the (single) overflow finding. -/
def mkOverflowVuln (count n : Nat) (t : Str) : Vulnerability :=
  { id := "overflow-".data ++ natToStr (count + 1)
  , title := overflowTitle
  , severity := .low
  , description := ("Arithmetic operations detected. Solidity versions before 0.8.0 do not have built-in overflow protection.").data
  , codeContext := { lineStart := some n, lineEnd := some n, snippet := some t }
  , suggestedFix := ("Upgrade to Solidity 0.8.0+ for automatic overflow protection, or use OpenZeppelin\x27s SafeMath library.").data }

/-- The overflow scan loop with its `foundArithmetic` one-shot flag. -/
def overflowPhaseAux : List Str → Nat → Bool → List Vulnerability → List Vulnerability
  | [], _, _, acc => acc
  | l :: rest, n, found, acc =>
    let t := jsTrim l
    if overflowSkipLine t then overflowPhaseAux rest (n + 1) found acc
    else
      if overflowArithTest t && !includesStr t "SafeMath".data &&
         !includesStr t "unchecked".data && !found then
        if overflowInnerTest t then
          overflowPhaseAux rest (n + 1) true (acc ++ [mkOverflowVuln acc.length n t])
        else overflowPhaseAux rest (n + 1) found acc
      else overflowPhaseAux rest (n + 1) found acc

/-- Overflow/underflow detector — only runs when `hasSolidity08Plus` is
false. -/
def overflowPhase (code : Str) (lines : List Str) (acc : List Vulnerability) :
    List Vulnerability :=
  if hasSolidity08Plus code then acc else overflowPhaseAux lines 1 false acc

/-- `hasAccessControl` over the function body. -/
def hasAccessControl (f : FunctionModel) : Bool :=
  includesStr f.body "onlyOwner".data || includesStr f.body "onlyRole".data ||
  includesStr f.body "require(msg.sender".data || includesStr f.body "require(_msgSender()".data

/-- `isStateChanging` over the function body. -/
def isStateChangingBody (f : FunctionModel) : Bool :=
  (includesStr f.body "=".data && !includesStr f.body "memory".data) ||
  includesStr f.body "transfer".data || includesStr f.body "mint".data ||
  includesStr f.body "burn".data

/-- The duplicate test of the access-control detector. -/
def isAccessDup (acc : List Vulnerability) (ls : Nat) : Bool :=
  acc.any (fun v => includesStr v.title accessTitle && v.codeContext.lineStart == some ls)

/-- Build one missing-access-control finding. -/
def mkAccessVuln (count : Nat) (f : FunctionModel) : Vulnerability :=
  { id := "access-".data ++ natToStr (count + 1)
  , title := if f.payable then accessPayableTitle else accessTitle
  , severity := if f.payable then .high else .medium
  , description :=
      if f.payable then
        ("Public payable function \"").data ++ f.name ++ ("\" lacks access control. Anyone can call this function and send funds to it. An attacker could repeatedly call this to drain the contract or transfer unauthorized amounts.").data
      else
        ("Public state-changing function \"").data ++ f.name ++ ("\" lacks access control. Unauthorized users could call this function and manipulate contract state.").data
  , codeContext :=
      { lineStart := some f.lineStart
      , lineEnd := some f.lineStart
      , snippet := some (jsTrim (joinNlBetween ((funcLines f).take 3))) }
  , suggestedFix :=
      ("Add access control modifiers to restrict function access:\n\n```solidity\n// Option 1: Owner-only\nfunction ").data ++ f.name ++
      ("(...) public onlyOwner \x7b ... \x7d\n\n// Option 2: Role-based\nfunction ").data ++ f.name ++
      ("(...) public onlyRole(ADMIN_ROLE) \x7b ... \x7d\n\n// Option 3: Manual check\nfunction ").data ++ f.name ++
      ("(...) public \x7b\n  require(msg.sender == owner, \"Unauthorized\");\n  ...\n\x7d\n```\n\nUse OpenZeppelin\x27s Ownable or AccessControl contracts for best practices.").data }

/-- Missing-access-control detector over the public function records. -/
def accessPhase : List FunctionModel → List Vulnerability → List Vulnerability
  | [], acc => acc
  | f :: fs, acc =>
    let acc1 :=
      if !hasAccessControl f && (f.payable || isStateChangingBody f) then
        if isAccessDup acc f.lineStart then acc else acc ++ [mkAccessVuln acc.length f]
      else acc
    accessPhase fs acc1

/-- The fallback informational finding (`info-1`). -/
def infoFinding : Vulnerability :=
  { id := "info-1".data
  , title := infoTitle
  , severity := .low
  , description := ("Basic static analysis did not detect common vulnerability patterns. However, a full security audit should include manual review and advanced analysis.").data
  , codeContext := {}
  , suggestedFix := ("Consider professional security audit for production contracts.").data }

/-- The finding list produced by the four pattern detectors, before the
fallback step. -/
def detectedFindings (code : Str) : List Vulnerability :=
  let lines := splitNl code
  let functions := parseFunctions code
  accessPhase (functions.filter (fun f => f.visibility == .public))
    (overflowPhase code lines
      (uncheckedPhase lines
        (reentrancyPhase code functions [])))

/-- `detectVulnerabilities`: the detector battery plus the fallback
informational finding when nothing was detected. -/
def detectVulnerabilities (code : Str) : List Vulnerability :=
  let vulnerabilities := detectedFindings code
  if vulnerabilities.isEmpty then [infoFinding] else vulnerabilities

/-! ## Metrics, risk scorer, report assembly (`calculateMetrics`,
`calculateRiskScore`, `getRiskLevel`, `generateSummary`,
`analyzeContract`) -/

/-- The per-severity tally loop of `calculateMetrics`, as
(critical, high, medium, low). -/
def tallyCounts (vulnerabilities : List Vulnerability) : Nat × Nat × Nat × Nat :=
  vulnerabilities.foldl
    (fun t v =>
      match v.severity with
      | .critical => (t.1 + 1, t.2.1, t.2.2.1, t.2.2.2)
      | .high => (t.1, t.2.1 + 1, t.2.2.1, t.2.2.2)
      | .medium => (t.1, t.2.1, t.2.2.1 + 1, t.2.2.2)
      | .low => (t.1, t.2.1, t.2.2.1, t.2.2.2 + 1))
    (0, 0, 0, 0)

/-- Length (in characters) consumed by a match of `function\s+\w+` anchored
at the start of `s`, if any. -/
def funcMatchLen (s : Str) : Option Nat :=
  if startsWithStr s "function".data then
    let r1 := s.drop 8
    let w := r1.takeWhile isJsWs
    if w.isEmpty then none
    else
      let nm := (r1.dropWhile isJsWs).takeWhile isWordChar
      if nm.isEmpty then none else some (8 + w.length + nm.length)
  else none

/-- Number of matches of the global regular expression `function\s+\w+`
(`code.match(/function\s+\w+/g)`); after a match the scan resumes right
after the matched text.  A successful match consumes at least 8
characters, so dropping `k - 1` from the tail equals dropping `k` from the
whole list. -/
def countFnMatches : Str → Nat
  | [] => 0
  | c :: cs =>
    match funcMatchLen (c :: cs) with
    | some k => 1 + countFnMatches (cs.drop (k - 1))
    | none => countFnMatches cs
termination_by s => s.length
decreasing_by
  · simp only [List.length_cons, List.length_drop]
    omega
  · simp

/-- `calculateMetrics`. -/
def calculateMetrics (code : Str) (vulnerabilities : List Vulnerability) : Metrics :=
  let lines := (splitNl code).filter (fun l => 0 < (jsTrim l).length)
  let t := tallyCounts vulnerabilities
  { totalVulnerabilities := vulnerabilities.length
  , criticalCount := t.1
  , highCount := t.2.1
  , mediumCount := t.2.2.1
  , lowCount := t.2.2.2
  , linesOfCode := lines.length
  , functionCount := countFnMatches code }

/-- `calculateRiskScore`: 10 for an empty list, otherwise the accumulated
per-severity weights capped at 100. -/
def calculateRiskScore (vulnerabilities : List Vulnerability) : Nat :=
  if vulnerabilities.isEmpty then 10
  else
    min 100
      (vulnerabilities.foldl
        (fun score v =>
          match v.severity with
          | .critical => score + 30
          | .high => score + 20
          | .medium => score + 10
          | .low => score + 5)
        0)

/-- `getRiskLevel`: thresholds 65 / 40 / 20. -/
def getRiskLevel (score : Nat) : RiskLevel :=
  if 65 ≤ score then .critical
  else if 40 ≤ score then .high
  else if 20 ≤ score then .medium
  else .low

/-- The qualitative label of a risk level. -/
def levelText : RiskLevel → Str
  | .low => "relatively secure".data
  | .medium => "moderately risky".data
  | .high => "highly risky".data
  | .critical => "critically vulnerable".data

/-- `generateSummary`. -/
def generateSummary (riskLevel : RiskLevel) (vulnCount : Nat) (metrics : Metrics) : Str :=
  ("The contract analysis indicates a ").data ++ levelText riskLevel ++
  (" security posture. Found ").data ++ natToStr vulnCount ++
  (" potential vulnerability/vulnerabilities across ").data ++ natToStr metrics.linesOfCode ++
  (" lines of code. ").data ++ natToStr metrics.functionCount ++ (" function(s) analyzed.").data

/-- `analyzeContract`: the engine entry point.  The thrown JS error is
modelled as `Except.error` with the error message. -/
def analyzeContract (request : AuditRequest) : Except Str AuditResult :=
  if request.inputType = .address then
    Except.error ("Address lookup not yet implemented").data
  else
    let vulnerabilities := detectVulnerabilities request.code
    let metrics := calculateMetrics request.code vulnerabilities
    let riskScore := calculateRiskScore vulnerabilities
    let riskLevel := getRiskLevel riskScore
    let summary := generateSummary riskLevel vulnerabilities.length metrics
    Except.ok
      { riskScore := riskScore
      , riskLevel := riskLevel
      , summary := summary
      , vulnerabilities := vulnerabilities
      , metrics := metrics }

/-! ## Specification-side definitions

The definitions in this section follow the words of the specification (not
the code); they exist to compare claims against the embedded code. -/

/-- The fixed per-severity weights named by the spec: critical +30,
high +20, medium +10, low +5. -/
def sevWeight : VulnerabilitySeverity → Nat
  | .critical => 30
  | .high => 20
  | .medium => 10
  | .low => 5

/-- Claim side of C1: "the function body or the whole source contains a
reentrancy-guard marker (a named guard modifier or a named guard base
contract)" — since the body is part of the source, this is containment of
either marker anywhere in the source. -/
def specGuardMarkerAnywhere (code : Str) : Bool :=
  includesStr code "nonReentrant".data || includesStr code "ReentrancyGuard".data

/-- Claim side of C7: a "success-check idiom" is a `require`/`if`
referencing a success variable, or an inline boolean-tuple destructure. -/
def specSuccessCheckIdiom (t : Str) : Bool :=
  (includesStr t "require".data && includesStr t "success".data) ||
  (includesStr t "if".data && includesStr t "success".data) ||
  includesStr t "(bool".data

/-- Remainder of `s` after the first occurrence of `key`. -/
def afterFirst (key : Str) : Str → Option Str
  | [] => none
  | c :: cs =>
    if key.isPrefixOf (c :: cs) then some ((c :: cs).drop key.length)
    else afterFirst key cs

/-- Parse a leading run of decimal digits. -/
def takeNatDigits (s : Str) : Option (Nat × Str) :=
  let ds := s.takeWhile Char.isDigit
  if ds.isEmpty then none
  else some (ds.foldl (fun n c => n * 10 + (c.toNat - 48)) 0, s.dropWhile Char.isDigit)

/-- Claim side of C6: "the source's declared compiler-version pragma is
below the version that introduced automatic arithmetic overflow checks"
(0.8.0): read the version after the first `pragma solidity`, skipping
whitespace and range operators, and compare major.minor against 0.8. -/
def specDeclaredPragmaBelow08 (code : Str) : Bool :=
  match afterFirst "pragma solidity".data code with
  | none => false
  | some rest =>
    let r := rest.dropWhile
      (fun c => isJsWs c || c = '^' || c = '>' || c = '<' || c = '=' || c = '~')
    match takeNatDigits r with
    | none => false
    | some (maj, r2) =>
      match r2 with
      | '.' :: r3 =>
        match takeNatDigits r3 with
        | none => false
        | some (minr, _) => maj == 0 && decide (minr < 8)
      | _ => false

/-- Per-line characterization of the unchecked-call detector (the amended
C7): severity/location pairs of the findings it emits, in order.  A raw
line qualifies when its trimmed form contains a call construct, the
trimmed line contains none of the same-line check substrings, and none of
the next (up to) 5 raw lines matches the success-check pattern. -/
def uncheckedSpecList : List Str → Nat → List (VulnerabilitySeverity × Option Nat)
  | [], _ => []
  | l :: rest, n =>
    let t := jsTrim l
    if uncheckedCallTest t && !(hasReturnCheck t || (rest.take 5).any laterCheckTest) then
      (.high, some n) :: uncheckedSpecList rest (n + 1)
    else uncheckedSpecList rest (n + 1)

/-- Characterization of the overflow detector scan (the amended C6):
severity/location of the single finding at the first line that is not a
`//`-comment/pragma/import line and passes the arithmetic-mutation and
assignment-statement tests; empty when no line qualifies. -/
def overflowSpecList : List Str → Nat → List (VulnerabilitySeverity × Option Nat)
  | [], _ => []
  | l :: rest, n =>
    let t := jsTrim l
    if overflowSkipLine t then overflowSpecList rest (n + 1)
    else
      if overflowArithTest t && !includesStr t "SafeMath".data &&
         !includesStr t "unchecked".data && overflowInnerTest t then
        [(.low, some n)]
      else overflowSpecList rest (n + 1)

/-! ## Concrete inputs used by counterexamples and witnesses -/

/-- A withdraw function with an external call before a state update and no
guard marker at all (spec scenario B). -/
def srcScenarioB : Str :=
  ("contract Vault \x7b\n  function withdraw() public \x7b\n    msg.sender.call\x7bvalue: amount\x7d(\"\");\n    balances[msg.sender] = 0;\n  \x7d\n\x7d").data

/-- The same withdraw function, with the guard-modifier marker
`nonReentrant` present in the source but outside the function body, and no
`ReentrancyGuard` base contract anywhere. -/
def srcGuardOutside : Str :=
  ("modifier nonReentrant() \x7b _; \x7d\ncontract Vault \x7b\n  function withdraw() public \x7b\n    msg.sender.call\x7bvalue: amount\x7d(\"\");\n    balances[msg.sender] = 0;\n  \x7d\n\x7d").data

/-- A source whose declared pragma (0.8.19) is not below 0.8.0 but matches
none of the three substrings tested by `hasSolidity08Plus`, together with
an arithmetic-mutation statement. -/
def srcPragma0819 : Str :=
  ("pragma solidity 0.8.19;\ncontract Counter \x7b\n  function increment() public \x7b\n    count += 1;\n  \x7d\n\x7d").data

/-- A single line with a low-level call and no success check; the trailing
comment word `notify` contains the substring `if`. -/
def srcNotify : Str :=
  ("addr.send(x); // notify").data

/-- A hand-made critical finding (the battery itself never produces
critical severity; this record exercises the scorer on severities outside
the battery's range). -/
def sampleCriticalFinding : Vulnerability :=
  { id := "sample-1".data
  , title := "Sample Critical".data
  , severity := .critical
  , description := "sample".data
  , codeContext := {}
  , suggestedFix := "sample".data }

/-- Placeholder function record for total list indexing. -/
def dfltFn : FunctionModel :=
  ⟨[], .public, false, [], 0, 0⟩

/-- The dedup invariant relation of C8: two findings may not share both
the title and the start line. -/
def dedupRel (a b : Vulnerability) : Prop :=
  a.title = b.title → a.codeContext.lineStart ≠ b.codeContext.lineStart

/-- Well-formedness of a segmented function record as produced by
`parseFunctions`: 1-based bounds in order, and a body that is exactly a
newline-terminated run of newline-free lines spanning
`lineStart..lineEnd`. -/
def recordOK (f : FunctionModel) : Prop :=
  1 ≤ f.lineStart ∧ f.lineStart ≤ f.lineEnd ∧
  ∃ bls, f.body = joinNlAfter bls ∧ (∀ l ∈ bls, ('\n' : Char) ∉ l) ∧
    bls.length = f.lineEnd + 1 - f.lineStart

/-! ## Helper lemmas -/

/-- The score-accumulation loop adds exactly the per-severity weights. -/
theorem riskFold_eq (l : List Vulnerability) (s : Nat) :
    l.foldl
      (fun score v =>
        match v.severity with
        | .critical => score + 30
        | .high => score + 20
        | .medium => score + 10
        | .low => score + 5) s
    = s + (l.map (fun v => sevWeight v.severity)).sum := by
  induction l generalizing s with
  | nil => simp
  | cons v vs ih =>
    simp only [List.foldl_cons, List.map_cons, List.sum_cons, ih]
    cases hv : v.severity <;> simp only [hv, sevWeight] <;> omega

/-- Field projections of `mkAccessVuln` (stated separately so proofs never
unfold the long remediation strings). -/
theorem mkAccessVuln_title (count : Nat) (f : FunctionModel) :
    (mkAccessVuln count f).title = if f.payable then accessPayableTitle else accessTitle :=
  rfl

/-- Severity projection of `mkAccessVuln`. -/
theorem mkAccessVuln_severity (count : Nat) (f : FunctionModel) :
    (mkAccessVuln count f).severity =
      if f.payable then VulnerabilitySeverity.high else VulnerabilitySeverity.medium :=
  rfl

/-- Location projection of `mkAccessVuln`. -/
theorem mkAccessVuln_lineStart (count : Nat) (f : FunctionModel) :
    (mkAccessVuln count f).codeContext.lineStart = some f.lineStart :=
  rfl

/-- Findings produced by the reentrancy loop beyond the input accumulator:
reentrancy title, guard-determined severity, located at one of the scanned
call lines. -/
theorem reentrancyLoop_mem {fl : List Str} {ls : Nat} {g : Bool} {us : List Nat} :
    ∀ {cs : List Nat} {acc : List Vulnerability} {v : Vulnerability},
      v ∈ reentrancyLoop fl ls g us cs acc →
      v ∈ acc ∨ (v.title = reentrancyTitle ∧
        v.severity = (if g then .medium else .high) ∧
        ∃ c ∈ cs, v.codeContext.lineStart = some c) := by
  intro cs
  induction cs with
  | nil => intro acc v h; exact Or.inl h
  | cons c cs ih =>
    intro acc v h
    rcases hf : us.find? (fun u => decide (c < u)) with _ | u
    · simp only [reentrancyLoop, hf] at h
      rcases ih h with h1 | ⟨ht, hs, c1, hc1, hls⟩
      · exact Or.inl h1
      · exact Or.inr ⟨ht, hs, c1, List.mem_cons_of_mem _ hc1, hls⟩
    · simp only [reentrancyLoop, hf] at h
      rcases ih h with h1 | ⟨ht, hs, c1, hc1, hls⟩
      · by_cases hd : isReentrancyDup acc c
        · rw [if_pos hd] at h1
          exact Or.inl h1
        · rw [if_neg hd] at h1
          rcases List.mem_append.mp h1 with h2 | h2
          · exact Or.inl h2
          · have hv : v = mkReentrancyVuln acc.length c u g fl ls := by
              simpa using h2
            subst hv
            exact Or.inr ⟨rfl, rfl, c, List.mem_cons_self c cs, rfl⟩
      · exact Or.inr ⟨ht, hs, c1, List.mem_cons_of_mem _ hc1, hls⟩

/-- Findings produced by the reentrancy detector beyond the accumulator. -/
theorem reentrancyPhase_mem {code : Str} :
    ∀ {fns : List FunctionModel} {acc : List Vulnerability} {v : Vulnerability},
      v ∈ reentrancyPhase code fns acc →
      v ∈ acc ∨ (v.title = reentrancyTitle ∧ ∃ f ∈ fns,
        v.severity = (if reentrancyGuard code f then .medium else .high) ∧
        ∃ c ∈ externalCallLines f, v.codeContext.lineStart = some c) := by
  intro fns
  induction fns with
  | nil => intro acc v h; exact Or.inl h
  | cons f fs ih =>
    intro acc v h
    simp only [reentrancyPhase] at h
    rcases ih h with h1 | ⟨ht, f1, hf1, rest⟩
    · rcases reentrancyLoop_mem h1 with h2 | ⟨ht, hs, c, hc, hls⟩
      · exact Or.inl h2
      · exact Or.inr ⟨ht, f, List.mem_cons_self f fs, hs, c, hc, hls⟩
    · exact Or.inr ⟨ht, f1, List.mem_cons_of_mem _ hf1, rest⟩

/-- Findings produced by the unchecked-call loop beyond the accumulator:
unchecked title, high severity, located at line `n` or later. -/
theorem uncheckedPhaseAux_mem :
    ∀ {lines : List Str} {n : Nat} {acc : List Vulnerability} {v : Vulnerability},
      v ∈ uncheckedPhaseAux lines n acc →
      v ∈ acc ∨ (v.title = uncheckedTitle ∧ v.severity = .high ∧
        ∃ m, v.codeContext.lineStart = some m ∧ n ≤ m) := by
  intro lines
  induction lines with
  | nil => intro n acc v h; exact Or.inl h
  | cons l rest ih =>
    intro n acc v h
    simp only [uncheckedPhaseAux] at h
    rcases ih h with h1 | ⟨ht, hs, m, hm, hnm⟩
    · by_cases hc : uncheckedCallTest (jsTrim l)
      · rw [if_pos hc] at h1
        by_cases hr : hasReturnCheck (jsTrim l) || (rest.take 5).any laterCheckTest
        · rw [if_pos hr] at h1
          exact Or.inl h1
        · rw [if_neg hr] at h1
          rcases List.mem_append.mp h1 with h2 | h2
          · exact Or.inl h2
          · have hv : v = mkUncheckedVuln acc.length n (jsTrim l) := by simpa using h2
            subst hv
            exact Or.inr ⟨rfl, rfl, n, rfl, Nat.le_refl n⟩
      · rw [if_neg hc] at h1
        exact Or.inl h1
    · exact Or.inr ⟨ht, hs, m, hm, Nat.le_of_succ_le hnm⟩

/-- Findings produced by the overflow scan beyond the accumulator. -/
theorem overflowPhaseAux_mem :
    ∀ {lines : List Str} {n : Nat} {found : Bool} {acc : List Vulnerability}
      {v : Vulnerability},
      v ∈ overflowPhaseAux lines n found acc →
      v ∈ acc ∨ (v.title = overflowTitle ∧ v.severity = .low) := by
  intro lines
  induction lines with
  | nil => intro n found acc v h; exact Or.inl h
  | cons l rest ih =>
    intro n found acc v h
    simp only [overflowPhaseAux] at h
    by_cases hskip : overflowSkipLine (jsTrim l)
    · rw [if_pos hskip] at h
      exact ih h
    · rw [if_neg hskip] at h
      by_cases houter : overflowArithTest (jsTrim l) &&
          !includesStr (jsTrim l) "SafeMath".data &&
          !includesStr (jsTrim l) "unchecked".data && !found
      · rw [if_pos houter] at h
        by_cases hinner : overflowInnerTest (jsTrim l)
        · rw [if_pos hinner] at h
          rcases ih h with h1 | h1
          · rcases List.mem_append.mp h1 with h2 | h2
            · exact Or.inl h2
            · have hv : v = mkOverflowVuln acc.length n (jsTrim l) := by simpa using h2
              subst hv
              exact Or.inr ⟨rfl, rfl⟩
          · exact Or.inr h1
        · rw [if_neg hinner] at h
          exact ih h
      · rw [if_neg houter] at h
        exact ih h

/-- Findings produced by the overflow detector beyond the accumulator. -/
theorem overflowPhase_mem {code : Str} {lines : List Str} {acc : List Vulnerability}
    {v : Vulnerability} (h : v ∈ overflowPhase code lines acc) :
    v ∈ acc ∨ (v.title = overflowTitle ∧ v.severity = .low) := by
  unfold overflowPhase at h
  by_cases hp : hasSolidity08Plus code
  · rw [if_pos hp] at h
    exact Or.inl h
  · rw [if_neg hp] at h
    exact overflowPhaseAux_mem h

/-- Findings produced by the access-control detector beyond the
accumulator. -/
theorem accessPhase_mem :
    ∀ {fns : List FunctionModel} {acc : List Vulnerability} {v : Vulnerability},
      v ∈ accessPhase fns acc →
      v ∈ acc ∨ ((v.title = accessTitle ∨ v.title = accessPayableTitle) ∧
        (v.severity = .medium ∨ v.severity = .high) ∧
        ∃ f ∈ fns, v.codeContext.lineStart = some f.lineStart) := by
  intro fns
  induction fns with
  | nil => intro acc v h; exact Or.inl h
  | cons f fs ih =>
    intro acc v h
    simp only [accessPhase] at h
    rcases ih h with h1 | ⟨ht, hs, f1, hf1, hls⟩
    · by_cases hg : !hasAccessControl f && (f.payable || isStateChangingBody f)
      · rw [if_pos hg] at h1
        by_cases hd : isAccessDup acc f.lineStart
        · rw [if_pos hd] at h1
          exact Or.inl h1
        · rw [if_neg hd] at h1
          rcases List.mem_append.mp h1 with h2 | h2
          · exact Or.inl h2
          · have hv : v = mkAccessVuln acc.length f := by simpa using h2
            subst hv
            refine Or.inr ⟨?_, ?_, f, List.mem_cons_self f fs, mkAccessVuln_lineStart _ f⟩
            · rw [mkAccessVuln_title]
              by_cases hp : f.payable
              · rw [if_pos hp]
                exact Or.inr rfl
              · rw [if_neg hp]
                exact Or.inl rfl
            · rw [mkAccessVuln_severity]
              by_cases hp : f.payable
              · rw [if_pos hp]
                exact Or.inr rfl
              · rw [if_neg hp]
                exact Or.inl rfl
      · rw [if_neg hg] at h1
        exact Or.inl h1
    · exact Or.inr ⟨ht, hs, f1, List.mem_cons_of_mem _ hf1, hls⟩

/-- Every finding of the full battery has reentrancy/unchecked/overflow/
access/fallback title and non-critical severity. -/
theorem detect_mem_severity {code : Str} {v : Vulnerability}
    (h : v ∈ detectVulnerabilities code) : v.severity ≠ .critical := by
  unfold detectVulnerabilities at h
  by_cases he : (detectedFindings code).isEmpty
  · rw [if_pos he] at h
    have hv : v = infoFinding := by simpa using h
    subst hv
    simp [infoFinding]
  · rw [if_neg he] at h
    unfold detectedFindings at h
    rcases accessPhase_mem h with h1 | ⟨_, hs, _⟩
    · rcases overflowPhase_mem h1 with h2 | ⟨_, hs⟩
      · rcases uncheckedPhaseAux_mem h2 with h3 | ⟨_, hs, _⟩
        · rcases reentrancyPhase_mem h3 with h4 | ⟨_, f, _, hs, _⟩
          · simp at h4
          · rcases hg : reentrancyGuard code f with _ | _ <;>
              (rw [hg] at hs; simp_all)
        · simp [hs]
      · simp [hs]
    · rcases hs with hs | hs <;> simp [hs]

/-- Title projection of `mkUncheckedVuln`. -/
theorem mkUncheckedVuln_title (count n : Nat) (t : Str) :
    (mkUncheckedVuln count n t).title = uncheckedTitle :=
  rfl

/-- Title projection of `mkOverflowVuln`. -/
theorem mkOverflowVuln_title (count n : Nat) (t : Str) :
    (mkOverflowVuln count n t).title = overflowTitle :=
  rfl

/-- Title projection of `mkReentrancyVuln`. -/
theorem mkReentrancyVuln_title (count c u : Nat) (g : Bool) (fl : List Str) (ls : Nat) :
    (mkReentrancyVuln count c u g fl ls).title = reentrancyTitle :=
  rfl

/-- The reentrancy loop only appends, and appends only reentrancy-titled
findings. -/
theorem reentrancyLoop_append {fl : List Str} {ls : Nat} {g : Bool} {us : List Nat} :
    ∀ (cs : List Nat) (acc : List Vulnerability),
      ∃ ex, reentrancyLoop fl ls g us cs acc = acc ++ ex ∧
        ∀ v ∈ ex, v.title = reentrancyTitle := by
  intro cs
  induction cs with
  | nil =>
    intro acc
    exact ⟨[], by simp [reentrancyLoop], by simp⟩
  | cons c cs ih =>
    intro acc
    rcases hf : us.find? (fun u => decide (c < u)) with _ | u
    · obtain ⟨ex, he, hex⟩ := ih acc
      exact ⟨ex, by simp only [reentrancyLoop, hf]; exact he, hex⟩
    · by_cases hd : isReentrancyDup acc c
      · obtain ⟨ex, he, hex⟩ := ih acc
        refine ⟨ex, ?_, hex⟩
        simp only [reentrancyLoop, hf, if_pos hd]
        exact he
      · obtain ⟨ex, he, hex⟩ := ih (acc ++ [mkReentrancyVuln acc.length c u g fl ls])
        refine ⟨mkReentrancyVuln acc.length c u g fl ls :: ex, ?_, ?_⟩
        · simp only [reentrancyLoop, hf, if_neg hd]
          rw [he, List.append_assoc]
          rfl
        · intro v hv
          rcases List.mem_cons.mp hv with h | h
          · subst h
            rfl
          · exact hex v h

/-- The reentrancy detector only appends, and appends only
reentrancy-titled findings. -/
theorem reentrancyPhase_append {code : Str} :
    ∀ (fns : List FunctionModel) (acc : List Vulnerability),
      ∃ ex, reentrancyPhase code fns acc = acc ++ ex ∧
        ∀ v ∈ ex, v.title = reentrancyTitle := by
  intro fns
  induction fns with
  | nil =>
    intro acc
    exact ⟨[], by simp [reentrancyPhase], by simp⟩
  | cons f fs ih =>
    intro acc
    obtain ⟨ex1, he1, hex1⟩ := reentrancyLoop_append (externalCallLines f) acc
    obtain ⟨ex2, he2, hex2⟩ :=
      ih (reentrancyLoop (funcLines f) f.lineStart (reentrancyGuard code f)
        (stateUpdateLines f) (externalCallLines f) acc)
    refine ⟨ex1 ++ ex2, ?_, ?_⟩
    · simp only [reentrancyPhase]
      rw [he2, he1, List.append_assoc]
    · intro v hv
      rcases List.mem_append.mp hv with h | h
      · exact hex1 v h
      · exact hex2 v h

/-- The unchecked-call loop only appends, and appends only
unchecked-titled findings. -/
theorem uncheckedPhaseAux_append :
    ∀ (lines : List Str) (n : Nat) (acc : List Vulnerability),
      ∃ ex, uncheckedPhaseAux lines n acc = acc ++ ex ∧
        ∀ v ∈ ex, v.title = uncheckedTitle := by
  intro lines
  induction lines with
  | nil =>
    intro n acc
    exact ⟨[], by simp [uncheckedPhaseAux], by simp⟩
  | cons l rest ih =>
    intro n acc
    by_cases hc : uncheckedCallTest (jsTrim l)
    · by_cases hr : hasReturnCheck (jsTrim l) || (rest.take 5).any laterCheckTest
      · obtain ⟨ex, he, hex⟩ := ih (n + 1) acc
        refine ⟨ex, ?_, hex⟩
        simp only [uncheckedPhaseAux, if_pos hc, if_pos hr]
        exact he
      · obtain ⟨ex, he, hex⟩ := ih (n + 1) (acc ++ [mkUncheckedVuln acc.length n (jsTrim l)])
        refine ⟨mkUncheckedVuln acc.length n (jsTrim l) :: ex, ?_, ?_⟩
        · simp only [uncheckedPhaseAux, if_pos hc, if_neg hr]
          rw [he, List.append_assoc]
          rfl
        · intro v hv
          rcases List.mem_cons.mp hv with h | h
          · subst h
            rfl
          · exact hex v h
    · obtain ⟨ex, he, hex⟩ := ih (n + 1) acc
      refine ⟨ex, ?_, hex⟩
      simp only [uncheckedPhaseAux, if_neg hc]
      exact he

/-- The overflow scan only appends, and appends only overflow-titled
findings. -/
theorem overflowPhaseAux_append :
    ∀ (lines : List Str) (n : Nat) (found : Bool) (acc : List Vulnerability),
      ∃ ex, overflowPhaseAux lines n found acc = acc ++ ex ∧
        ∀ v ∈ ex, v.title = overflowTitle := by
  intro lines
  induction lines with
  | nil =>
    intro n found acc
    exact ⟨[], by simp [overflowPhaseAux], by simp⟩
  | cons l rest ih =>
    intro n found acc
    by_cases hskip : overflowSkipLine (jsTrim l)
    · obtain ⟨ex, he, hex⟩ := ih (n + 1) found acc
      refine ⟨ex, ?_, hex⟩
      simp only [overflowPhaseAux, if_pos hskip]
      exact he
    · by_cases houter : overflowArithTest (jsTrim l) &&
          !includesStr (jsTrim l) "SafeMath".data &&
          !includesStr (jsTrim l) "unchecked".data && !found
      · by_cases hinner : overflowInnerTest (jsTrim l)
        · obtain ⟨ex, he, hex⟩ := ih (n + 1) true (acc ++ [mkOverflowVuln acc.length n (jsTrim l)])
          refine ⟨mkOverflowVuln acc.length n (jsTrim l) :: ex, ?_, ?_⟩
          · simp only [overflowPhaseAux, if_neg hskip, if_pos houter, if_pos hinner]
            rw [he, List.append_assoc]
            rfl
          · intro v hv
            rcases List.mem_cons.mp hv with h | h
            · subst h
              rfl
            · exact hex v h
        · obtain ⟨ex, he, hex⟩ := ih (n + 1) found acc
          refine ⟨ex, ?_, hex⟩
          simp only [overflowPhaseAux, if_neg hskip, if_pos houter, if_neg hinner]
          exact he
      · obtain ⟨ex, he, hex⟩ := ih (n + 1) found acc
        refine ⟨ex, ?_, hex⟩
        simp only [overflowPhaseAux, if_neg hskip, if_neg houter]
        exact he

/-- The access-control detector only appends, and appends only
access-titled findings. -/
theorem accessPhase_append :
    ∀ (fns : List FunctionModel) (acc : List Vulnerability),
      ∃ ex, accessPhase fns acc = acc ++ ex ∧
        ∀ v ∈ ex, v.title = accessTitle ∨ v.title = accessPayableTitle := by
  intro fns
  induction fns with
  | nil =>
    intro acc
    exact ⟨[], by simp [accessPhase], by simp⟩
  | cons f fs ih =>
    intro acc
    by_cases hg : !hasAccessControl f && (f.payable || isStateChangingBody f)
    · by_cases hd : isAccessDup acc f.lineStart
      · obtain ⟨ex, he, hex⟩ := ih acc
        refine ⟨ex, ?_, hex⟩
        simp only [accessPhase, if_pos hg, if_pos hd]
        exact he
      · obtain ⟨ex, he, hex⟩ := ih (acc ++ [mkAccessVuln acc.length f])
        refine ⟨mkAccessVuln acc.length f :: ex, ?_, ?_⟩
        · simp only [accessPhase, if_pos hg, if_neg hd]
          rw [he, List.append_assoc]
          rfl
        · intro v hv
          rcases List.mem_cons.mp hv with h | h
          · subst h
            rw [mkAccessVuln_title]
            by_cases hp : f.payable
            · rw [if_pos hp]
              exact Or.inr rfl
            · rw [if_neg hp]
              exact Or.inl rfl
          · exact hex v h
    · obtain ⟨ex, he, hex⟩ := ih acc
      refine ⟨ex, ?_, hex⟩
      simp only [accessPhase, if_neg hg]
      exact he

/-- A Boolean that is not true is false. -/
theorem bool_eq_false {b : Bool} (h : ¬(b = true)) : b = false := by
  cases b
  · rfl
  · exact absurd rfl h

/-- Filtering by a title different from both access titles passes through
the access-control detector. -/
theorem accessPhase_filter_other {T : Str} (h1 : ¬(accessTitle == T) = true)
    (h2 : ¬(accessPayableTitle == T) = true) (fns : List FunctionModel)
    (acc : List Vulnerability) :
    (accessPhase fns acc).filter (fun v => v.title == T) =
      acc.filter (fun v => v.title == T) := by
  obtain ⟨ex, he, hex⟩ := accessPhase_append fns acc
  rw [he, List.filter_append]
  have hnil : ex.filter (fun v => v.title == T) = [] := by
    refine List.filter_eq_nil_iff.mpr ?_
    intro v hv
    rcases hex v hv with h | h <;> (rw [h]; assumption)
  rw [hnil, List.append_nil]

/-- Filtering by a title different from the overflow title passes through
the overflow detector. -/
theorem overflowPhase_filter_other {T : Str} (h : ¬(overflowTitle == T) = true)
    (code : Str) (lines : List Str) (acc : List Vulnerability) :
    (overflowPhase code lines acc).filter (fun v => v.title == T) =
      acc.filter (fun v => v.title == T) := by
  unfold overflowPhase
  by_cases hp : hasSolidity08Plus code
  · rw [if_pos hp]
  · rw [if_neg hp]
    obtain ⟨ex, he, hex⟩ := overflowPhaseAux_append lines 1 false acc
    rw [he, List.filter_append]
    have hnil : ex.filter (fun v => v.title == T) = [] := by
      refine List.filter_eq_nil_iff.mpr ?_
      intro v hv
      rw [hex v hv]
      assumption
    rw [hnil, List.append_nil]

/-- Filtering by a title different from the unchecked title passes through
the unchecked-call detector. -/
theorem uncheckedPhase_filter_other {T : Str} (h : ¬(uncheckedTitle == T) = true)
    (lines : List Str) (acc : List Vulnerability) :
    (uncheckedPhase lines acc).filter (fun v => v.title == T) =
      acc.filter (fun v => v.title == T) := by
  unfold uncheckedPhase
  obtain ⟨ex, he, hex⟩ := uncheckedPhaseAux_append lines 1 acc
  rw [he, List.filter_append]
  have hnil : ex.filter (fun v => v.title == T) = [] := by
    refine List.filter_eq_nil_iff.mpr ?_
    intro v hv
    rw [hex v hv]
    assumption
  rw [hnil, List.append_nil]

/-- Starting from the empty accumulator, the reentrancy detector yields no
finding with a title other than the reentrancy title. -/
theorem reentrancyPhase_filter_nil {T : Str} (h : ¬(reentrancyTitle == T) = true)
    (code : Str) (fns : List FunctionModel) :
    (reentrancyPhase code fns []).filter (fun v => v.title == T) = [] := by
  refine List.filter_eq_nil_iff.mpr ?_
  intro v hv
  rcases reentrancyPhase_mem hv with h1 | ⟨ht, _⟩
  · simp at h1
  · rw [ht]
    assumption

/-- The unchecked-call loop emits exactly the findings characterized by
`uncheckedSpecList`: severity high at each qualifying raw line, in order. -/
theorem uncheckedPhaseAux_filter :
    ∀ (lines : List Str) (n : Nat) (acc : List Vulnerability),
      ((uncheckedPhaseAux lines n acc).filter (fun v => v.title == uncheckedTitle)).map
        (fun v => (v.severity, v.codeContext.lineStart))
      = ((acc.filter (fun v => v.title == uncheckedTitle)).map
          (fun v => (v.severity, v.codeContext.lineStart))) ++ uncheckedSpecList lines n := by
  intro lines
  induction lines with
  | nil =>
    intro n acc
    simp [uncheckedPhaseAux, uncheckedSpecList]
  | cons l rest ih =>
    intro n acc
    by_cases hc : uncheckedCallTest (jsTrim l)
    · by_cases hr : hasReturnCheck (jsTrim l) || (rest.take 5).any laterCheckTest
      · have hcond : (uncheckedCallTest (jsTrim l) &&
            !(hasReturnCheck (jsTrim l) || (rest.take 5).any laterCheckTest)) = false := by
          rw [hc, hr]
          rfl
        simp only [uncheckedPhaseAux, uncheckedSpecList, if_pos hc, if_pos hr, hcond,
          Bool.false_eq_true, if_false]
        exact ih (n + 1) acc
      · have hcond : (uncheckedCallTest (jsTrim l) &&
            !(hasReturnCheck (jsTrim l) || (rest.take 5).any laterCheckTest)) = true := by
          rw [hc, bool_eq_false hr]
          rfl
        simp only [uncheckedPhaseAux, uncheckedSpecList, if_pos hc, if_neg hr, hcond, if_true]
        rw [ih (n + 1) (acc ++ [mkUncheckedVuln acc.length n (jsTrim l)])]
        rw [List.filter_append]
        have hone : List.filter (fun v => v.title == uncheckedTitle)
            [mkUncheckedVuln acc.length n (jsTrim l)] =
            [mkUncheckedVuln acc.length n (jsTrim l)] := by
          simp [List.filter, mkUncheckedVuln_title]
        rw [hone, List.map_append, List.append_assoc]
        rfl
    · have hcond : (uncheckedCallTest (jsTrim l) &&
          !(hasReturnCheck (jsTrim l) || (rest.take 5).any laterCheckTest)) = false := by
        rw [bool_eq_false hc]
        rfl
      simp only [uncheckedPhaseAux, uncheckedSpecList, if_neg hc, hcond,
        Bool.false_eq_true, if_false]
      exact ih (n + 1) acc

/-- The overflow scan emits exactly the findings characterized by
`overflowSpecList` (nothing more once the one-shot flag is set). -/
theorem overflowPhaseAux_filter :
    ∀ (lines : List Str) (n : Nat) (found : Bool) (acc : List Vulnerability),
      ((overflowPhaseAux lines n found acc).filter (fun v => v.title == overflowTitle)).map
        (fun v => (v.severity, v.codeContext.lineStart))
      = ((acc.filter (fun v => v.title == overflowTitle)).map
          (fun v => (v.severity, v.codeContext.lineStart))) ++
        (if found then [] else overflowSpecList lines n) := by
  intro lines
  induction lines with
  | nil =>
    intro n found acc
    cases found <;> simp [overflowPhaseAux, overflowSpecList]
  | cons l rest ih =>
    intro n found acc
    by_cases hskip : overflowSkipLine (jsTrim l)
    · have hspec : (if found then ([] : List (VulnerabilitySeverity × Option Nat))
          else overflowSpecList (l :: rest) n) =
          (if found then [] else overflowSpecList rest (n + 1)) := by
        cases found
        · simp only [if_false, Bool.false_eq_true]
          simp only [overflowSpecList, if_pos hskip]
        · rfl
      simp only [overflowPhaseAux, if_pos hskip]
      rw [ih (n + 1) found acc, hspec]
    · cases found with
      | true =>
        have houter : (overflowArithTest (jsTrim l) &&
            !includesStr (jsTrim l) "SafeMath".data &&
            !includesStr (jsTrim l) "unchecked".data && !true) = false := by
          simp
        simp only [overflowPhaseAux, if_neg hskip, houter, Bool.false_eq_true, if_false]
        rw [ih (n + 1) true acc]
        simp
      | false =>
        by_cases houter0 : overflowArithTest (jsTrim l) &&
            !includesStr (jsTrim l) "SafeMath".data &&
            !includesStr (jsTrim l) "unchecked".data
        · have houter : (overflowArithTest (jsTrim l) &&
              !includesStr (jsTrim l) "SafeMath".data &&
              !includesStr (jsTrim l) "unchecked".data && !false) = true := by
            rw [Bool.not_false, Bool.and_true]
            exact houter0
          by_cases hinner : overflowInnerTest (jsTrim l)
          · have hspec : overflowSpecList (l :: rest) n =
                [(VulnerabilitySeverity.low, some n)] := by
              simp only [overflowSpecList, if_neg hskip, houter0, hinner, Bool.and_true,
                if_true]
            simp only [overflowPhaseAux, if_neg hskip, houter, if_true, if_pos hinner]
            rw [ih (n + 1) true (acc ++ [mkOverflowVuln acc.length n (jsTrim l)])]
            rw [List.filter_append]
            have hone : List.filter (fun v => v.title == overflowTitle)
                [mkOverflowVuln acc.length n (jsTrim l)] =
                [mkOverflowVuln acc.length n (jsTrim l)] := by
              simp [List.filter, mkOverflowVuln_title]
            rw [hone, List.map_append, hspec]
            simp
            exact ⟨rfl, rfl⟩
          · have hspec : overflowSpecList (l :: rest) n = overflowSpecList rest (n + 1) := by
              have : (overflowArithTest (jsTrim l) &&
                  !includesStr (jsTrim l) "SafeMath".data &&
                  !includesStr (jsTrim l) "unchecked".data &&
                  overflowInnerTest (jsTrim l)) = false := by
                rw [bool_eq_false hinner, Bool.and_false]
              simp only [overflowSpecList, if_neg hskip, this, Bool.false_eq_true, if_false]
            simp only [overflowPhaseAux, if_neg hskip, houter, if_true, if_neg hinner]
            rw [ih (n + 1) false acc, hspec]
        · have houter : (overflowArithTest (jsTrim l) &&
              !includesStr (jsTrim l) "SafeMath".data &&
              !includesStr (jsTrim l) "unchecked".data && !false) = false := by
            rw [Bool.not_false, Bool.and_true]
            exact bool_eq_false houter0
          have hspec : overflowSpecList (l :: rest) n = overflowSpecList rest (n + 1) := by
            have hb : (overflowArithTest (jsTrim l) &&
                !includesStr (jsTrim l) "SafeMath".data &&
                !includesStr (jsTrim l) "unchecked".data &&
                overflowInnerTest (jsTrim l)) = false := by
              rw [bool_eq_false houter0, Bool.false_and]
            simp only [overflowSpecList, if_neg hskip, hb, Bool.false_eq_true, if_false]
          simp only [overflowPhaseAux, if_neg hskip, houter, Bool.false_eq_true, if_false]
          rw [ih (n + 1) false acc, hspec]
          simp

/-- Unchecked-call findings of the whole battery (before the fallback)
are exactly those of `uncheckedSpecList`. -/
theorem detected_filter_unchecked (code : Str) :
    ((detectedFindings code).filter (fun v => v.title == uncheckedTitle)).map
      (fun v => (v.severity, v.codeContext.lineStart))
    = uncheckedSpecList (splitNl code) 1 := by
  unfold detectedFindings
  rw [accessPhase_filter_other (by decide) (by decide)]
  rw [overflowPhase_filter_other (by decide)]
  unfold uncheckedPhase
  rw [uncheckedPhaseAux_filter]
  rw [reentrancyPhase_filter_nil (by decide)]
  simp

/-- Overflow findings of the whole battery (before the fallback) are
exactly those of `overflowSpecList`, gated by `hasSolidity08Plus`. -/
theorem detected_filter_overflow (code : Str) :
    ((detectedFindings code).filter (fun v => v.title == overflowTitle)).map
      (fun v => (v.severity, v.codeContext.lineStart))
    = if hasSolidity08Plus code then [] else overflowSpecList (splitNl code) 1 := by
  unfold detectedFindings
  rw [accessPhase_filter_other (by decide) (by decide)]
  unfold overflowPhase
  by_cases hp : hasSolidity08Plus code
  · rw [if_pos hp, if_pos hp]
    rw [uncheckedPhase_filter_other (by decide)]
    rw [reentrancyPhase_filter_nil (by decide)]
    simp
  · rw [if_neg hp, if_neg hp]
    rw [overflowPhaseAux_filter]
    rw [uncheckedPhase_filter_other (by decide)]
    rw [reentrancyPhase_filter_nil (by decide)]
    simp

/-- Location projection of `mkReentrancyVuln`. -/
theorem mkReentrancyVuln_lineStart (count c u : Nat) (gd : Bool) (fl : List Str) (ls : Nat) :
    (mkReentrancyVuln count c u gd fl ls).codeContext.lineStart = some c :=
  rfl

/-- Severity projection of `mkReentrancyVuln`. -/
theorem mkReentrancyVuln_severity (count c u : Nat) (gd : Bool) (fl : List Str) (ls : Nat) :
    (mkReentrancyVuln count c u gd fl ls).severity =
      (if gd then VulnerabilitySeverity.medium else VulnerabilitySeverity.high) :=
  rfl

/-- Location projection of `mkUncheckedVuln`. -/
theorem mkUncheckedVuln_lineStart (count n : Nat) (t : Str) :
    (mkUncheckedVuln count n t).codeContext.lineStart = some n :=
  rfl

/-- The reentrancy loop preserves the dedup invariant (its duplicate test
blocks a second reentrancy finding at the same start line). -/
theorem reentrancyLoop_pairwise {fl : List Str} {ls : Nat} {gd : Bool} {us : List Nat} :
    ∀ (cs : List Nat) (acc : List Vulnerability), acc.Pairwise dedupRel →
      (reentrancyLoop fl ls gd us cs acc).Pairwise dedupRel := by
  intro cs
  induction cs with
  | nil => intro acc h; exact h
  | cons c cs ih =>
    intro acc hacc
    rcases hf : us.find? (fun u => decide (c < u)) with _ | u
    · simp only [reentrancyLoop, hf]
      exact ih acc hacc
    · simp only [reentrancyLoop, hf]
      by_cases hd : isReentrancyDup acc c
      · rw [if_pos hd]
        exact ih acc hacc
      · rw [if_neg hd]
        refine ih _ ?_
        rw [List.pairwise_append]
        refine ⟨hacc, by simp, ?_⟩
        intro a ha b hb
        have hb1 : b = mkReentrancyVuln acc.length c u gd fl ls := by simpa using hb
        subst hb1
        intro hteq hls
        rw [mkReentrancyVuln_title] at hteq
        rw [mkReentrancyVuln_lineStart] at hls
        apply hd
        unfold isReentrancyDup
        refine List.any_eq_true.mpr ⟨a, ha, ?_⟩
        rw [hteq, hls]
        have h1 : includesStr (lcStr reentrancyTitle) "reentrancy".data = true := by decide
        rw [h1]
        simp


/-- The reentrancy detector preserves the dedup invariant. -/
theorem reentrancyPhase_pairwise {code : Str} :
    ∀ (fns : List FunctionModel) (acc : List Vulnerability), acc.Pairwise dedupRel →
      (reentrancyPhase code fns acc).Pairwise dedupRel := by
  intro fns
  induction fns with
  | nil => intro acc h; exact h
  | cons f fs ih =>
    intro acc hacc
    simp only [reentrancyPhase]
    exact ih _ (reentrancyLoop_pairwise _ _ hacc)

/-- The unchecked-call loop preserves the dedup invariant: earlier
unchecked findings sit at strictly smaller line numbers. -/
theorem uncheckedPhaseAux_pairwise :
    ∀ (lines : List Str) (n : Nat) (acc : List Vulnerability),
      acc.Pairwise dedupRel →
      (∀ a ∈ acc, a.title = uncheckedTitle →
        ∃ m, a.codeContext.lineStart = some m ∧ m < n) →
      (uncheckedPhaseAux lines n acc).Pairwise dedupRel := by
  intro lines
  induction lines with
  | nil => intro n acc h _; exact h
  | cons l rest ih =>
    intro n acc hacc hinv
    by_cases hc : uncheckedCallTest (jsTrim l)
    · by_cases hr : hasReturnCheck (jsTrim l) || (rest.take 5).any laterCheckTest
      · simp only [uncheckedPhaseAux, if_pos hc, if_pos hr]
        refine ih (n + 1) acc hacc ?_
        intro a ha ht
        obtain ⟨m, hm, hlt⟩ := hinv a ha ht
        exact ⟨m, hm, Nat.lt_succ_of_lt hlt⟩
      · simp only [uncheckedPhaseAux, if_pos hc, if_neg hr]
        refine ih (n + 1) _ ?_ ?_
        · rw [List.pairwise_append]
          refine ⟨hacc, by simp, ?_⟩
          intro a ha b hb
          have hb1 : b = mkUncheckedVuln acc.length n (jsTrim l) := by simpa using hb
          subst hb1
          intro hteq hls
          rw [mkUncheckedVuln_title] at hteq
          rw [mkUncheckedVuln_lineStart] at hls
          obtain ⟨m, hm, hlt⟩ := hinv a ha hteq
          rw [hm] at hls
          have : m = n := by simpa using hls
          omega
        · intro a ha ht
          rcases List.mem_append.mp ha with h1 | h1
          · obtain ⟨m, hm, hlt⟩ := hinv a h1 ht
            exact ⟨m, hm, Nat.lt_succ_of_lt hlt⟩
          · have ha1 : a = mkUncheckedVuln acc.length n (jsTrim l) := by simpa using h1
            subst ha1
            exact ⟨n, mkUncheckedVuln_lineStart _ _ _, Nat.lt_succ_self n⟩
    · simp only [uncheckedPhaseAux, if_neg hc]
      refine ih (n + 1) acc hacc ?_
      intro a ha ht
      obtain ⟨m, hm, hlt⟩ := hinv a ha ht
      exact ⟨m, hm, Nat.lt_succ_of_lt hlt⟩

/-- The overflow scan preserves the dedup invariant: the one-shot flag
allows at most one overflow finding. -/
theorem overflowPhaseAux_pairwise :
    ∀ (lines : List Str) (n : Nat) (found : Bool) (acc : List Vulnerability),
      acc.Pairwise dedupRel →
      (found = false → ∀ a ∈ acc, a.title ≠ overflowTitle) →
      (overflowPhaseAux lines n found acc).Pairwise dedupRel := by
  intro lines
  induction lines with
  | nil => intro n found acc h _; exact h
  | cons l rest ih =>
    intro n found acc hacc hinv
    by_cases hskip : overflowSkipLine (jsTrim l)
    · simp only [overflowPhaseAux, if_pos hskip]
      exact ih (n + 1) found acc hacc hinv
    · by_cases houter : overflowArithTest (jsTrim l) &&
          !includesStr (jsTrim l) "SafeMath".data &&
          !includesStr (jsTrim l) "unchecked".data && !found
      · have hfound : found = false := by
          rcases found with _ | _
          · rfl
          · simp at houter
        by_cases hinner : overflowInnerTest (jsTrim l)
        · simp only [overflowPhaseAux, if_neg hskip, if_pos houter, if_pos hinner]
          refine ih (n + 1) true _ ?_ ?_
          · rw [List.pairwise_append]
            refine ⟨hacc, by simp, ?_⟩
            intro a ha b hb
            have hb1 : b = mkOverflowVuln acc.length n (jsTrim l) := by simpa using hb
            subst hb1
            intro hteq
            rw [mkOverflowVuln_title] at hteq
            exact absurd hteq (hinv hfound a ha)
          · intro hcontra
            simp at hcontra
        · simp only [overflowPhaseAux, if_neg hskip, if_pos houter, if_neg hinner]
          exact ih (n + 1) found acc hacc hinv
      · simp only [overflowPhaseAux, if_neg hskip, if_neg houter]
        exact ih (n + 1) found acc hacc hinv

/-- The access-control detector preserves the dedup invariant (its
duplicate test blocks a second access finding at the same start line). -/
theorem accessPhase_pairwise :
    ∀ (fns : List FunctionModel) (acc : List Vulnerability), acc.Pairwise dedupRel →
      (accessPhase fns acc).Pairwise dedupRel := by
  intro fns
  induction fns with
  | nil => intro acc h; exact h
  | cons f fs ih =>
    intro acc hacc
    by_cases hg : !hasAccessControl f && (f.payable || isStateChangingBody f)
    · by_cases hd : isAccessDup acc f.lineStart
      · simp only [accessPhase, if_pos hg, if_pos hd]
        exact ih acc hacc
      · simp only [accessPhase, if_pos hg, if_neg hd]
        refine ih _ ?_
        rw [List.pairwise_append]
        refine ⟨hacc, by simp, ?_⟩
        intro a ha b hb
        have hb1 : b = mkAccessVuln acc.length f := by simpa using hb
        subst hb1
        intro hteq hls
        rw [mkAccessVuln_title] at hteq
        rw [mkAccessVuln_lineStart] at hls
        apply hd
        unfold isAccessDup
        refine List.any_eq_true.mpr ⟨a, ha, ?_⟩
        have hincl : includesStr a.title accessTitle = true := by
          by_cases hp : f.payable
          · rw [if_pos hp] at hteq
            rw [hteq]
            decide
          · rw [if_neg hp] at hteq
            rw [hteq]
            decide
        rw [hincl, hls]
        simp
    · simp only [accessPhase, if_neg hg]
      exact ih acc hacc

/-- C8 core: the battery output (before the fallback) satisfies the dedup
invariant. -/
theorem detected_pairwise (code : Str) :
    (detectedFindings code).Pairwise dedupRel := by
  unfold detectedFindings
  apply accessPhase_pairwise
  have hv1 : ∀ a ∈ reentrancyPhase code (parseFunctions code) [],
      a.title = reentrancyTitle := by
    intro a ha
    rcases reentrancyPhase_mem ha with h | ⟨ht, _⟩
    · simp at h
    · exact ht
  have hv2 : ∀ a ∈ uncheckedPhase (splitNl code) (reentrancyPhase code (parseFunctions code) []),
      a.title = reentrancyTitle ∨ a.title = uncheckedTitle := by
    intro a ha
    rcases uncheckedPhaseAux_mem ha with h | ⟨ht, _⟩
    · exact Or.inl (hv1 a h)
    · exact Or.inr ht
  unfold overflowPhase
  by_cases hp : hasSolidity08Plus code
  · rw [if_pos hp]
    unfold uncheckedPhase
    apply uncheckedPhaseAux_pairwise
    · exact reentrancyPhase_pairwise _ [] (by simp)
    · intro a ha ht
      have := hv1 a ha
      rw [this] at ht
      exact absurd ht (by decide)
  · rw [if_neg hp]
    apply overflowPhaseAux_pairwise
    · unfold uncheckedPhase
      apply uncheckedPhaseAux_pairwise
      · exact reentrancyPhase_pairwise _ [] (by simp)
      · intro a ha ht
        have := hv1 a ha
        rw [this] at ht
        exact absurd ht (by decide)
    · intro _ a ha ht
      rcases hv2 a ha with h | h <;> (rw [h] at ht; exact absurd ht (by decide))

/-- The per-severity tally accumulates the count of critical findings. -/
theorem tallyFold_fst (l : List Vulnerability) (t : Nat × Nat × Nat × Nat) :
    (l.foldl
      (fun t v =>
        match v.severity with
        | .critical => (t.1 + 1, t.2.1, t.2.2.1, t.2.2.2)
        | .high => (t.1, t.2.1 + 1, t.2.2.1, t.2.2.2)
        | .medium => (t.1, t.2.1, t.2.2.1 + 1, t.2.2.2)
        | .low => (t.1, t.2.1, t.2.2.1, t.2.2.2 + 1)) t).1
    = t.1 + l.countP (fun v => v.severity == .critical) := by
  induction l generalizing t with
  | nil => simp
  | cons v vs ih =>
    simp only [List.foldl_cons, ih, List.countP_cons]
    cases hv : v.severity <;> (simp [hv]; try omega)

/-- `splitNl` never returns the empty list. -/
theorem splitNl_ne_nil (s : Str) : splitNl s ≠ [] := by
  induction s with
  | nil => simp [splitNl]
  | cons c cs ih =>
    simp only [splitNl]
    by_cases h : c = '\n'
    · rw [if_pos h]
      simp
    · rw [if_neg h]
      rcases hs : splitNl cs with _ | ⟨p, t⟩
      · simp
      · simp

/-- Pieces produced by `splitNl` contain no newline. -/
theorem splitNl_no_newline : ∀ (s : Str), ∀ l ∈ splitNl s, ('\n' : Char) ∉ l := by
  intro s
  induction s with
  | nil =>
    intro l hl
    simp [splitNl] at hl
    subst hl
    simp
  | cons c cs ih =>
    intro l hl
    simp only [splitNl] at hl
    by_cases h : c = '\n'
    · rw [if_pos h] at hl
      rcases List.mem_cons.mp hl with h1 | h1
      · subst h1
        simp
      · exact ih l h1
    · rw [if_neg h] at hl
      rcases hs : splitNl cs with _ | ⟨p, t⟩
      · rw [hs] at hl
        simp at hl
        subst hl
        intro hmem
        rcases List.mem_cons.mp hmem with h2 | h2
        · exact h h2.symm
        · simp at h2
      · rw [hs] at hl
        rcases List.mem_cons.mp hl with h1 | h1
        · subst h1
          have hp : ('\n' : Char) ∉ p := ih p (by rw [hs]; exact List.mem_cons_self _ _)
          intro hmem
          rcases List.mem_cons.mp hmem with h2 | h2
          · exact h h2.symm
          · exact hp h2
        · exact ih l (by rw [hs]; exact List.mem_cons_of_mem _ h1)

/-- Splitting after appending one newline-free line plus a newline. -/
theorem splitNl_append_nl : ∀ (l r : Str), ('\n' : Char) ∉ l →
    splitNl (l ++ '\n' :: r) = l :: splitNl r := by
  intro l
  induction l with
  | nil =>
    intro r _
    simp [splitNl]
  | cons c cs ih =>
    intro r hnl
    have hc : c ≠ '\n' := by
      intro h
      exact hnl (List.mem_cons.mpr (Or.inl h.symm))
    have hcs : ('\n' : Char) ∉ cs := fun hm => hnl (List.mem_cons_of_mem _ hm)
    simp only [List.cons_append, splitNl, if_neg hc]
    rw [show cs.append ('\n' :: r) = cs ++ '\n' :: r from rfl, ih r hcs]

/-- `splitNl` inverts `joinNlAfter` on newline-free lines, up to the
trailing empty piece. -/
theorem splitNl_joinNlAfter : ∀ (bls : List Str), (∀ l ∈ bls, ('\n' : Char) ∉ l) →
    splitNl (joinNlAfter bls) = bls ++ [[]] := by
  intro bls
  induction bls with
  | nil => intro _; rfl
  | cons l ls ih =>
    intro h
    simp only [joinNlAfter]
    rw [splitNl_append_nl l _ (h l (List.mem_cons_self _ _))]
    rw [ih (fun x hx => h x (List.mem_cons_of_mem _ hx))]
    rfl

/-- `joinNlAfter` distributes over append. -/
theorem joinNlAfter_append : ∀ (a b : List Str),
    joinNlAfter (a ++ b) = joinNlAfter a ++ joinNlAfter b := by
  intro a b
  induction a with
  | nil => rfl
  | cons l ls ih =>
    simp only [List.cons_append, joinNlAfter, List.append_eq, ih, List.append_assoc]

/-- Unfolded shape of one `stepInFunction` step. -/
theorem stepInFunction_eq (line : Str) (i : Nat) (pf : PartialFn) (depth : Int)
    (acc : List FunctionModel) :
    stepInFunction line i pf depth acc =
      if depth + braceDelta line = 0 ∧ includesStr (jsTrim line) "\x7d".data = true then
        (none, acc ++
          [⟨pf.name, pf.visibility, pf.payable, pf.body ++ line ++ ['\n'], pf.lineStart, i + 1⟩])
      else
        (some ({ pf with body := pf.body ++ line ++ ['\n'] }, depth + braceDelta line), acc) :=
  rfl

/-- The structural invariant of the `parseFunctions` scan: every record is
well formed and closed by the current position, records are in
line-disjoint order, and any open partial record extends past every
closed one and holds the lines scanned since its start. -/
theorem parseAux_invariant :
    ∀ (lines : List Str) (i : Nat) (st : Option (PartialFn × Int)) (acc : List FunctionModel),
      (∀ l ∈ lines, ('\n' : Char) ∉ l) →
      (∀ f ∈ acc, recordOK f ∧ f.lineEnd ≤ i) →
      acc.Pairwise (fun f g => f.lineEnd < g.lineStart) →
      (∀ pf d, st = some (pf, d) →
        1 ≤ pf.lineStart ∧ pf.lineStart ≤ i ∧
        (∀ f ∈ acc, f.lineEnd < pf.lineStart) ∧
        ∃ bls, pf.body = joinNlAfter bls ∧ (∀ l ∈ bls, ('\n' : Char) ∉ l) ∧
          bls.length = i + 1 - pf.lineStart) →
      (∀ f ∈ parseAux lines i st acc, recordOK f) ∧
      (parseAux lines i st acc).Pairwise (fun f g => f.lineEnd < g.lineStart) := by
  intro lines
  induction lines with
  | nil =>
    intro i st acc _ H1 H2 _
    exact ⟨fun f hf => (H1 f hf).1, H2⟩
  | cons line rest ih =>
    intro i st acc H4 H1 H2 H3
    have H4head : ('\n' : Char) ∉ line := H4 line (List.mem_cons_self _ _)
    have H4rest : ∀ l ∈ rest, ('\n' : Char) ∉ l := fun l hl => H4 l (List.mem_cons_of_mem _ hl)
    rcases st with _ | ⟨pf, depth⟩
    · rcases hm : matchFunctionDecl (jsTrim line) with _ | m
      · simp only [parseAux, hm]
        refine ih (i + 1) none acc H4rest ?_ H2 ?_
        · intro f hf
          exact ⟨(H1 f hf).1, Nat.le_succ_of_le (H1 f hf).2⟩
        · intro pf d h
          cases h
      · simp only [parseAux, hm, stepInFunction_eq]
        by_cases hcl : (0 : Int) + braceDelta line = 0 ∧ includesStr (jsTrim line) "\x7d".data = true
        · rw [if_pos hcl]
          simp only
          refine ih (i + 1) none _ H4rest ?_ ?_ ?_
          · intro f hf
            rcases List.mem_append.mp hf with h1 | h1
            · exact ⟨(H1 f h1).1, Nat.le_succ_of_le (H1 f h1).2⟩
            · have hf1 : f = ⟨m.name, m.visibility.getD .public, m.payable,
                  [] ++ line ++ ['\n'], i + 1, i + 1⟩ := by simpa using h1
              subst hf1
              refine ⟨⟨Nat.le_add_left 1 i, Nat.le_refl _, [line], ?_, ?_, ?_⟩, Nat.le_refl _⟩
              · simp [joinNlAfter]
              · intro l hl
                rw [List.mem_singleton] at hl
                subst hl
                exact H4head
              · simp
          · rw [List.pairwise_append]
            refine ⟨H2, by simp, ?_⟩
            intro a ha b hb
            have hb1 : b = ⟨m.name, m.visibility.getD .public, m.payable,
                [] ++ line ++ ['\n'], i + 1, i + 1⟩ := by simpa using hb
            subst hb1
            exact Nat.lt_succ_of_le (H1 a ha).2
          · intro pf d h
            cases h
        · rw [if_neg hcl]
          simp only
          refine ih (i + 1) _ acc H4rest ?_ H2 ?_
          · intro f hf
            exact ⟨(H1 f hf).1, Nat.le_succ_of_le (H1 f hf).2⟩
          · intro pf1 d1 h
            injection h with h1
            injection h1 with h1a h1b
            refine ⟨?_, ?_, ?_, ?_⟩
            · rw [← h1a]
              exact Nat.le_add_left 1 i
            · rw [← h1a]
            · intro f hf
              rw [← h1a]
              exact Nat.lt_succ_of_le (H1 f hf).2
            · refine ⟨[line], ?_, ?_, ?_⟩
              · rw [← h1a]
                simp [joinNlAfter]
              · intro l hl
                rw [List.mem_singleton] at hl
                subst hl
                exact H4head
              · rw [← h1a]
                simp
    · obtain ⟨hge1, hlei, hgap, bls, hbody, hblnl, hblen⟩ := H3 pf depth rfl
      simp only [parseAux, stepInFunction_eq]
      by_cases hcl : depth + braceDelta line = 0 ∧ includesStr (jsTrim line) "\x7d".data = true
      · rw [if_pos hcl]
        simp only
        refine ih (i + 1) none _ H4rest ?_ ?_ ?_
        · intro f hf
          rcases List.mem_append.mp hf with h1 | h1
          · exact ⟨(H1 f h1).1, Nat.le_succ_of_le (H1 f h1).2⟩
          · have hf1 : f = ⟨pf.name, pf.visibility, pf.payable,
                pf.body ++ line ++ ['\n'], pf.lineStart, i + 1⟩ := by simpa using h1
            subst hf1
            refine ⟨⟨hge1, Nat.le_succ_of_le hlei, bls ++ [line], ?_, ?_, ?_⟩, Nat.le_refl _⟩
            · show pf.body ++ line ++ ['\n'] = joinNlAfter (bls ++ [line])
              rw [joinNlAfter_append, hbody]
              simp [joinNlAfter]
            · intro l hl
              rcases List.mem_append.mp hl with h2 | h2
              · exact hblnl l h2
              · rw [List.mem_singleton] at h2
                subst h2
                exact H4head
            · show (bls ++ [line]).length = (i + 1) + 1 - pf.lineStart
              rw [List.length_append, hblen]
              simp only [List.length_singleton]
              omega
        · rw [List.pairwise_append]
          refine ⟨H2, by simp, ?_⟩
          intro a ha b hb
          have hb1 : b = ⟨pf.name, pf.visibility, pf.payable,
              pf.body ++ line ++ ['\n'], pf.lineStart, i + 1⟩ := by simpa using hb
          subst hb1
          exact hgap a ha
        · intro pf1 d1 h
          cases h
      · rw [if_neg hcl]
        simp only
        refine ih (i + 1) _ acc H4rest ?_ H2 ?_
        · intro f hf
          exact ⟨(H1 f hf).1, Nat.le_succ_of_le (H1 f hf).2⟩
        · intro pf1 d1 h
          injection h with h1
          injection h1 with h1a h1b
          refine ⟨?_, ?_, ?_, ?_⟩
          · rw [← h1a]
            exact hge1
          · rw [← h1a]
            exact Nat.le_succ_of_le hlei
          · intro f hf
            rw [← h1a]
            exact hgap f hf
          · refine ⟨bls ++ [line], ?_, ?_, ?_⟩
            · rw [← h1a]
              show pf.body ++ line ++ ['\n'] = joinNlAfter (bls ++ [line])
              rw [joinNlAfter_append, hbody]
              simp [joinNlAfter]
            · intro l hl
              rcases List.mem_append.mp hl with h2 | h2
              · exact hblnl l h2
              · rw [List.mem_singleton] at h2
                subst h2
                exact H4head
            · rw [← h1a]
              rw [List.length_append, hblen]
              simp only [List.length_singleton]
              omega

/-- Structural facts about `parseFunctions` output: every record is well
formed and the records occupy disjoint, increasing line ranges. -/
theorem parseFunctions_ok (code : Str) :
    (∀ f ∈ parseFunctions code, recordOK f) ∧
    (parseFunctions code).Pairwise (fun f g => f.lineEnd < g.lineStart) := by
  unfold parseFunctions
  exact parseAux_invariant (splitNl code) 0 none []
    (splitNl_no_newline code) (by simp) (by simp) (by intro pf d h; cases h)

/-- Lower bound on scanned line numbers. -/
theorem reentrancyScan_lb (p : Str → Bool) :
    ∀ (ls : List Str) (n x : Nat), x ∈ reentrancyScan p ls n → n ≤ x := by
  intro ls
  induction ls with
  | nil =>
    intro n x h
    simp [reentrancyScan] at h
  | cons l rest ih =>
    intro n x h
    simp only [reentrancyScan] at h
    by_cases hcm : isCommentLine (jsTrim l)
    · rw [if_pos hcm] at h
      exact Nat.le_of_succ_le (ih (n + 1) x h)
    · rw [if_neg hcm] at h
      by_cases hp : p (jsTrim l)
      · rw [if_pos hp] at h
        rcases List.mem_cons.mp h with h1 | h1
        · omega
        · exact Nat.le_of_succ_le (ih (n + 1) x h1)
      · rw [if_neg hp] at h
        exact Nat.le_of_succ_le (ih (n + 1) x h)

/-- Scanned line numbers are strictly increasing. -/
theorem reentrancyScan_sorted (p : Str → Bool) :
    ∀ (ls : List Str) (n : Nat), (reentrancyScan p ls n).Pairwise (· < ·) := by
  intro ls
  induction ls with
  | nil =>
    intro n
    simp [reentrancyScan]
  | cons l rest ih =>
    intro n
    simp only [reentrancyScan]
    by_cases hcm : isCommentLine (jsTrim l)
    · rw [if_pos hcm]
      exact ih (n + 1)
    · rw [if_neg hcm]
      by_cases hp : p (jsTrim l)
      · rw [if_pos hp]
        refine List.Pairwise.cons ?_ (ih (n + 1))
        intro x hx
        exact Nat.lt_of_succ_le (reentrancyScan_lb p rest (n + 1) x hx)
      · rw [if_neg hp]
        exact ih (n + 1)

/-- Characterization of scanned line numbers: each points at a line of the
scanned list whose trimmed form passes the test. -/
theorem reentrancyScan_mem (p : Str → Bool) :
    ∀ (ls : List Str) (n x : Nat), x ∈ reentrancyScan p ls n →
      ∃ j, j < ls.length ∧ x = n + j ∧ p (jsTrim (ls.getD j [])) = true := by
  intro ls
  induction ls with
  | nil =>
    intro n x h
    simp [reentrancyScan] at h
  | cons l rest ih =>
    intro n x h
    simp only [reentrancyScan] at h
    by_cases hcm : isCommentLine (jsTrim l)
    · rw [if_pos hcm] at h
      obtain ⟨j, hj, hx, hp⟩ := ih (n + 1) x h
      exact ⟨j + 1, by simpa using hj, by omega, by simpa using hp⟩
    · rw [if_neg hcm] at h
      by_cases hp : p (jsTrim l)
      · rw [if_pos hp] at h
        rcases List.mem_cons.mp h with h1 | h1
        · exact ⟨0, by simp, by omega, by simpa using hp⟩
        · obtain ⟨j, hj, hx, hpj⟩ := ih (n + 1) x h1
          exact ⟨j + 1, by simpa using hj, by omega, by simpa using hpj⟩
      · rw [if_neg hp] at h
        obtain ⟨j, hj, hx, hpj⟩ := ih (n + 1) x h
        exact ⟨j + 1, by simpa using hj, by omega, by simpa using hpj⟩

/-- External-call lines of a well-formed record lie inside its line
range. -/
theorem callLines_range {f : FunctionModel} (h : recordOK f) :
    ∀ x ∈ externalCallLines f, f.lineStart ≤ x ∧ x ≤ f.lineEnd := by
  intro x hx
  obtain ⟨h1, h2, bls, hb, hnl, hlen⟩ := h
  have hfl : funcLines f = bls ++ [[]] := by
    unfold funcLines
    rw [hb]
    exact splitNl_joinNlAfter bls hnl
  unfold externalCallLines at hx
  rw [hfl] at hx
  have lb := reentrancyScan_lb callTestFull _ _ _ hx
  obtain ⟨j, hj, hxj, hp⟩ := reentrancyScan_mem callTestFull _ _ _ hx
  refine ⟨lb, ?_⟩
  have hjlt : j < bls.length := by
    rcases Nat.lt_or_ge j bls.length with hlt | hge
    · exact hlt
    · exfalso
      have hj_eq : j = bls.length := by
        rw [List.length_append, List.length_singleton] at hj
        omega
      rw [hj_eq] at hp
      have hnilpiece : (bls ++ [[]]).getD bls.length [] = ([] : Str) := by
        rw [List.getD_eq_getElem?_getD]
        rw [List.getElem?_append_right (Nat.le_refl _)]
        simp
      rw [hnilpiece] at hp
      exact absurd hp (by decide)
  omega

/-- Membership in the accumulator survives the unchecked-call detector. -/
theorem uncheckedPhase_mono {lines : List Str} {acc : List Vulnerability}
    {v : Vulnerability} (h : v ∈ acc) : v ∈ uncheckedPhase lines acc := by
  unfold uncheckedPhase
  obtain ⟨ex, he, _⟩ := uncheckedPhaseAux_append lines 1 acc
  rw [he]
  exact List.mem_append_left _ h

/-- Membership in the accumulator survives the overflow detector. -/
theorem overflowPhase_mono {code : Str} {lines : List Str} {acc : List Vulnerability}
    {v : Vulnerability} (h : v ∈ acc) : v ∈ overflowPhase code lines acc := by
  unfold overflowPhase
  by_cases hp : hasSolidity08Plus code
  · rw [if_pos hp]
    exact h
  · rw [if_neg hp]
    obtain ⟨ex, he, _⟩ := overflowPhaseAux_append lines 1 false acc
    rw [he]
    exact List.mem_append_left _ h

/-- Membership in the accumulator survives the access-control detector. -/
theorem accessPhase_mono {fns : List FunctionModel} {acc : List Vulnerability}
    {v : Vulnerability} (h : v ∈ acc) : v ∈ accessPhase fns acc := by
  obtain ⟨ex, he, _⟩ := accessPhase_append fns acc
  rw [he]
  exact List.mem_append_left _ h

/-- If some call line of the scanned list has a later update line and no
equal-location reentrancy finding is in the accumulator, the loop emits a
reentrancy finding at that call line with the guard-determined severity. -/
theorem reentrancyLoop_exists {fl : List Str} {lsn : Nat} {gd : Bool} {us : List Nat} :
    ∀ (cs : List Nat) (acc : List Vulnerability) (c : Nat),
      c ∈ cs → cs.Pairwise (· < ·) →
      (∃ u ∈ us, c < u) →
      (∀ v ∈ acc, includesStr (lcStr v.title) "reentrancy".data = true →
        v.codeContext.lineStart ≠ some c) →
      ∃ v ∈ reentrancyLoop fl lsn gd us cs acc, v.title = reentrancyTitle ∧
        v.codeContext.lineStart = some c ∧
        v.severity = (if gd then VulnerabilitySeverity.medium else VulnerabilitySeverity.high) := by
  intro cs
  induction cs with
  | nil =>
    intro acc c hc
    simp at hc
  | cons c0 cs ih =>
    intro acc c hc hsort hu hinv
    rcases List.mem_cons.mp hc with hceq | hctail
    · subst hceq
      obtain ⟨u, hu_mem, hcu⟩ := hu
      have hfs : (us.find? (fun u => decide (c < u))).isSome := by
        refine List.find?_isSome.mpr ⟨u, hu_mem, ?_⟩
        simpa using hcu
      obtain ⟨u1, hu1⟩ := Option.isSome_iff_exists.mp hfs
      simp only [reentrancyLoop, hu1]
      have hdup : ¬(isReentrancyDup acc c = true) := by
        intro hany
        obtain ⟨v, hv, hpred⟩ := List.any_eq_true.mp hany
        rw [Bool.and_eq_true] at hpred
        exact hinv v hv hpred.1 (eq_of_beq hpred.2)
      rw [if_neg hdup]
      obtain ⟨ex, hex_eq, _⟩ :=
        reentrancyLoop_append cs (acc ++ [mkReentrancyVuln acc.length c u1 gd fl lsn])
      refine ⟨mkReentrancyVuln acc.length c u1 gd fl lsn, ?_, rfl, rfl, rfl⟩
      rw [hex_eq]
      exact List.mem_append_left _ (List.mem_append_right _ (List.mem_singleton_self _))
    · have hsort2 := List.pairwise_cons.mp hsort
      have hlt : c0 < c := hsort2.1 c hctail
      rcases hf : us.find? (fun u => decide (c0 < u)) with _ | u1
      · simp only [reentrancyLoop, hf]
        exact ih acc c hctail hsort2.2 hu hinv
      · simp only [reentrancyLoop, hf]
        by_cases hd : isReentrancyDup acc c0
        · rw [if_pos hd]
          exact ih acc c hctail hsort2.2 hu hinv
        · rw [if_neg hd]
          refine ih _ c hctail hsort2.2 hu ?_
          intro v hv hlc
          rcases List.mem_append.mp hv with h1 | h1
          · exact hinv v h1 hlc
          · have hveq : v = mkReentrancyVuln acc.length c0 u1 gd fl lsn := by simpa using h1
            subst hveq
            rw [mkReentrancyVuln_lineStart]
            intro heq
            injection heq with heq2
            omega

/-- If a segmented function has a call line before an update line, the
reentrancy detector emits a finding at that call line with severity
determined by that function's guard test. -/
theorem reentrancyPhase_exists {code : Str} :
    ∀ (fns : List FunctionModel) (acc : List Vulnerability) (f : FunctionModel) (c u : Nat),
      f ∈ fns → c ∈ externalCallLines f → u ∈ stateUpdateLines f → c < u →
      (∀ g ∈ fns, recordOK g) →
      fns.Pairwise (fun g h => g.lineEnd < h.lineStart) →
      (∀ v ∈ acc, includesStr (lcStr v.title) "reentrancy".data = true →
        ∀ g ∈ fns, ∀ x ∈ externalCallLines g, v.codeContext.lineStart ≠ some x) →
      ∃ v ∈ reentrancyPhase code fns acc, v.title = reentrancyTitle ∧
        v.codeContext.lineStart = some c ∧
        v.severity =
          (if reentrancyGuard code f then VulnerabilitySeverity.medium
           else VulnerabilitySeverity.high) := by
  intro fns
  induction fns with
  | nil =>
    intro acc f c u hf
    simp at hf
  | cons g gs ih =>
    intro acc f c u hf hc hup hcu hrec hpair hinv
    simp only [reentrancyPhase]
    rcases List.mem_cons.mp hf with hfeq | hftail
    · subst hfeq
      obtain ⟨v, hv_mem, hprops⟩ :=
        reentrancyLoop_exists (externalCallLines f) acc c hc
          (reentrancyScan_sorted callTestFull (funcLines f) f.lineStart)
          ⟨u, hup, hcu⟩
          (fun v hv hlc => hinv v hv hlc f (List.mem_cons_self _ _) c hc)
      obtain ⟨ex2, hex2, _⟩ := reentrancyPhase_append gs
        (reentrancyLoop (funcLines f) f.lineStart (reentrancyGuard code f)
          (stateUpdateLines f) (externalCallLines f) acc)
      refine ⟨v, ?_, hprops⟩
      rw [hex2]
      exact List.mem_append_left _ hv_mem
    · refine ih _ f c u hftail hc hup hcu
        (fun g1 hg1 => hrec g1 (List.mem_cons_of_mem _ hg1))
        (List.pairwise_cons.mp hpair).2 ?_
      intro v hv hlc g1 hg1 x hx
      rcases reentrancyLoop_mem hv with h1 | ⟨ht, hs, c1, hc1, hls⟩
      · exact hinv v h1 hlc g1 (List.mem_cons_of_mem _ hg1) x hx
      · rw [hls]
        intro heq
        injection heq with heq2
        have hrange_g := callLines_range (hrec g (List.mem_cons_self _ _)) c1 hc1
        have hrange_g1 := callLines_range (hrec g1 (List.mem_cons_of_mem _ hg1)) x hx
        have hgap := (List.pairwise_cons.mp hpair).1 g1 hg1
        omega

/-! ## Claim theorems -/

/-- C2: for every finding list, `calculateRiskScore` equals the sum of the
fixed per-severity weights (critical 30, high 20, medium 10, low 5) capped
at 100, and the empty list scores the fixed baseline 10. -/
theorem riskScore_eq_weightSum_capped (l : List Vulnerability) :
    calculateRiskScore l =
      if l = [] then 10 else min 100 ((l.map (fun v => sevWeight v.severity)).sum) := by
  unfold calculateRiskScore
  rcases l with _ | ⟨v, vs⟩
  · simp
  · rw [riskFold_eq]
    simp

/-- C3: appending one more critical finding never decreases the risk score
(modulo the 100 cap); the score-to-level mapping is monotone non-decreasing
in the order low < medium < high < critical; and every level is one of the
four values. -/
theorem score_critical_monotone_level_monotone :
    (∀ (l : List Vulnerability) (v : Vulnerability), v.severity = .critical →
      calculateRiskScore l ≤ calculateRiskScore (l ++ [v])) ∧
    (∀ s1 s2 : Nat, s1 ≤ s2 → (getRiskLevel s1).rank ≤ (getRiskLevel s2).rank) ∧
    (∀ s : Nat, getRiskLevel s = .low ∨ getRiskLevel s = .medium ∨ getRiskLevel s = .high ∨
      getRiskLevel s = .critical) := by
  refine ⟨?_, ?_, ?_⟩
  · intro l v hv
    rw [riskScore_eq_weightSum_capped, riskScore_eq_weightSum_capped]
    rcases l with _ | ⟨w, ws⟩
    · simp [hv, sevWeight]
    · have hne : (w :: ws : List Vulnerability) ≠ [] := by simp
      have hne2 : (w :: ws : List Vulnerability) ++ [v] ≠ [] := by simp
      rw [if_neg hne, if_neg hne2]
      simp only [List.map_append, List.sum_append, List.map_cons, List.map_nil,
        List.sum_cons, List.sum_nil, hv, sevWeight]
      exact min_le_min (Nat.le_refl 100) (by omega)
  · intro s1 s2 h
    unfold getRiskLevel
    split_ifs <;> simp only [RiskLevel.rank] <;> omega
  · intro s
    unfold getRiskLevel
    split_ifs <;> simp

/-- Witness for C3 at concrete inputs: the empty finding list plus one
critical finding, and the scores 0 ≤ 50. -/
theorem score_critical_monotone_level_monotone_witness :
    calculateRiskScore [] ≤ calculateRiskScore ([] ++ [sampleCriticalFinding]) ∧
    (getRiskLevel 0).rank ≤ (getRiskLevel 50).rank ∧
    (getRiskLevel 0 = .low ∨ getRiskLevel 0 = .medium ∨ getRiskLevel 0 = .high ∨
      getRiskLevel 0 = .critical) :=
  ⟨score_critical_monotone_level_monotone.1 [] sampleCriticalFinding rfl,
   score_critical_monotone_level_monotone.2.1 0 50 (by decide),
   score_critical_monotone_level_monotone.2.2 0⟩

/-- C9: a request in address mode is rejected with the explicit "not yet
implemented" error; no result is produced and no text analysis happens. -/
theorem address_mode_rejected (request : AuditRequest)
    (h : request.inputType = .address) :
    analyzeContract request = Except.error ("Address lookup not yet implemented").data := by
  unfold analyzeContract
  rw [if_pos h]

/-- Witness for C9 at a concrete address-mode request. -/
theorem address_mode_rejected_witness :
    analyzeContract ⟨("0x0000000000000000000000000000000000000000").data, .address⟩ =
      Except.error ("Address lookup not yet implemented").data :=
  address_mode_rejected ⟨("0x0000000000000000000000000000000000000000").data, .address⟩ rfl

/-- C5 counterexample: on the empty source text the engine does NOT raise
an error — `analyzeContract` returns a normal `AuditResult`, so the claim
"empty source raises InvalidInput and produces no AuditResult" is false on
the code. -/
theorem empty_source_produces_result :
    (analyzeContract ⟨[], .solidity⟩).isOk = true := by decide

/-- C5 amended: for empty source text in source mode the engine raises no
error and returns a result whose finding list is exactly the fallback
informational finding (empty-input rejection lives in the UI layer, not in
the engine). -/
theorem empty_source_yields_fallback_result :
    ((analyzeContract ⟨[], .solidity⟩).toOption.map (fun r => r.vulnerabilities)) =
      some [infoFinding] := by decide

/-- C10: the detector battery never produces a critical finding, so the
report's `criticalCount` is 0 for every input (and the critical weight of
the risk scorer is unreachable from engine output). -/
theorem battery_never_critical (code : Str) :
    ((detectVulnerabilities code).filter (fun v => v.severity == .critical)) = [] ∧
    (calculateMetrics code (detectVulnerabilities code)).criticalCount = 0 := by
  have hnc : ∀ v ∈ detectVulnerabilities code, ¬(v.severity == .critical) = true := by
    intro v hv
    simpa using detect_mem_severity hv
  constructor
  · exact List.filter_eq_nil_iff.mpr hnc
  · show (tallyCounts (detectVulnerabilities code)).1 = 0
    unfold tallyCounts
    rw [tallyFold_fst]
    simpa using List.countP_eq_zero.mpr hnc

/-- C4: for every source the returned finding list is non-empty, and
whenever the detector battery produces zero findings the result is exactly
the single low-severity informational finding with empty code context. -/
theorem findings_nonempty_with_fallback (code : Str) :
    1 ≤ (detectVulnerabilities code).length ∧
    (detectedFindings code = [] → detectVulnerabilities code = [infoFinding]) ∧
    infoFinding.severity = .low ∧ infoFinding.codeContext = ({} : CodeContext) := by
  refine ⟨?_, ?_, rfl, rfl⟩
  · unfold detectVulnerabilities
    by_cases he : (detectedFindings code).isEmpty
    · rw [if_pos he]
      simp
    · rw [if_neg he]
      have : detectedFindings code ≠ [] := by
        simpa [List.isEmpty_iff] using he
      have := List.length_pos.mpr this
      omega
  · intro h
    unfold detectVulnerabilities
    rw [h]
    simp

/-- Witness for C4 at the empty source, where the battery produces zero
findings. -/
theorem findings_nonempty_with_fallback_witness :
    detectedFindings [] = [] ∧ detectVulnerabilities [] = [infoFinding] :=
  ⟨by decide, (findings_nonempty_with_fallback []).2.1 (by decide)⟩

/-- C7 counterexample: the line `addr.send(x); // notify` contains a
low-level call construct and no success-check idiom (no `success`
reference, no boolean-tuple destructure) on it or after it, yet the
detector emits no finding, because the bare substring test `"if"` matches
inside the comment word `notify`.  So the claimed if-and-only-if is false
on the code. -/
theorem unchecked_claim_false_on_notify_line :
    uncheckedCallTest (jsTrim srcNotify) = true ∧
    specSuccessCheckIdiom srcNotify = false ∧
    splitNl srcNotify = [srcNotify] ∧
    (detectVulnerabilities srcNotify).filter (fun v => v.title == uncheckedTitle) = [] := by
  refine ⟨by decide, by decide, by decide, by decide⟩

/-- C7 amended: the unchecked-call detector emits a high finding at a raw
line if and only if the trimmed line contains a call construct
(`.call{`/`.call(`/`.send(`/`.transfer(`), the trimmed line contains none
of the substrings `require`, `if`, `bool success`, `(bool,`, and none of
the next (up to) 5 raw lines matches `require\s*\(.*success` or
`if\s*\(.*success` — stated as equality of the ordered
(severity, location) projections with `uncheckedSpecList`. -/
theorem unchecked_findings_characterization (code : Str) :
    ((detectVulnerabilities code).filter (fun v => v.title == uncheckedTitle)).map
      (fun v => (v.severity, v.codeContext.lineStart))
    = uncheckedSpecList (splitNl code) 1 := by
  unfold detectVulnerabilities
  by_cases he : (detectedFindings code).isEmpty
  · rw [if_pos he]
    have h0 := detected_filter_unchecked code
    rw [List.isEmpty_iff.mp he] at h0
    simp only [List.filter_nil, List.map_nil] at h0
    rw [← h0]
    have hf : (infoFinding.title == uncheckedTitle) = false := by decide
    simp [List.filter_cons, hf]
  · rw [if_neg he]
    exact detected_filter_unchecked code

/-- C6 counterexample: `srcPragma0819` declares `pragma solidity 0.8.19`,
which is not below the version (0.8.0) that introduced automatic overflow
checks, yet the overflow detector runs and emits its finding — the code
only tests three caret/range substrings, not the declared version.  So the
claim "runs only when the declared pragma is below that version" is false
on the code. -/
theorem overflow_detector_runs_at_checked_pragma :
    specDeclaredPragmaBelow08 srcPragma0819 = false ∧
    (detectVulnerabilities srcPragma0819).any
      (fun v => v.title == overflowTitle && v.severity == VulnerabilitySeverity.low) = true := by
  refine ⟨by decide, by decide⟩

/-- C6 amended: the overflow detector runs only when the source contains
none of the three substrings `pragma solidity ^0.8` / `>=0.8` / `>0.8`;
when it runs it emits at most one finding, of severity low, at the first
line that is not a `//`-comment/pragma/import line and passes the
arithmetic-mutation and assignment-statement tests — stated as equality of
the (severity, location) projections with the at-most-singleton
`overflowSpecList`. -/
theorem overflow_findings_characterization (code : Str) :
    ((detectVulnerabilities code).filter (fun v => v.title == overflowTitle)).map
      (fun v => (v.severity, v.codeContext.lineStart))
    = if hasSolidity08Plus code then [] else overflowSpecList (splitNl code) 1 := by
  unfold detectVulnerabilities
  by_cases he : (detectedFindings code).isEmpty
  · rw [if_pos he]
    have h0 := detected_filter_overflow code
    rw [List.isEmpty_iff.mp he] at h0
    simp only [List.filter_nil, List.map_nil] at h0
    rw [← h0]
    have hf : (infoFinding.title == overflowTitle) = false := by decide
    simp [List.filter_cons, hf]
  · rw [if_neg he]
    exact detected_filter_overflow code

/-- C1 counterexample: in `srcGuardOutside` the guard-modifier marker
`nonReentrant` occurs in the whole source (outside the vulnerable function
body), so the claim demands a `medium` reentrancy finding; the code emits
the reentrancy finding with severity `high` and none with `medium`,
because it only checks the function body for `nonReentrant` and the whole
source for `ReentrancyGuard`. -/
theorem reentrancy_guard_claim_false :
    specGuardMarkerAnywhere srcGuardOutside = true ∧
    (detectVulnerabilities srcGuardOutside).any
      (fun v => v.title == reentrancyTitle &&
        v.severity == VulnerabilitySeverity.high) = true ∧
    (detectVulnerabilities srcGuardOutside).all
      (fun v => !(v.title == reentrancyTitle &&
        v.severity == VulnerabilitySeverity.medium)) = true := by
  refine ⟨by decide, by decide, by decide⟩

/-- C1 amended: whenever a segmented function has an external-call line
before a state-mutation line, the engine emits a reentrancy finding at
that call line whose severity is high, downgraded to medium exactly when
the function body contains the guard-modifier marker (`nonReentrant`) or
the whole source contains the guard-contract marker (`ReentrancyGuard`). -/
theorem reentrancy_finding_emitted (code : Str) (f : FunctionModel) (c u : Nat)
    (hf : f ∈ parseFunctions code) (hc : c ∈ externalCallLines f)
    (hu : u ∈ stateUpdateLines f) (hcu : c < u) :
    ∃ v ∈ detectVulnerabilities code, v.title = reentrancyTitle ∧
      v.codeContext.lineStart = some c ∧
      v.severity =
        (if reentrancyGuard code f then VulnerabilitySeverity.medium
         else VulnerabilitySeverity.high) := by
  obtain ⟨hrec, hpair⟩ := parseFunctions_ok code
  obtain ⟨v, hv, hprops⟩ :=
    reentrancyPhase_exists (parseFunctions code) [] f c u hf hc hu hcu hrec hpair (by simp)
  have hvd : v ∈ detectedFindings code := by
    unfold detectedFindings
    exact accessPhase_mono (overflowPhase_mono (uncheckedPhase_mono hv))
  have hne : ¬((detectedFindings code).isEmpty = true) := by
    rw [List.isEmpty_iff]
    intro h0
    rw [h0] at hvd
    simp at hvd
  unfold detectVulnerabilities
  rw [if_neg hne]
  exact ⟨v, hvd, hprops⟩

/-- Witness for C1 at scenario B: the withdraw function of `srcScenarioB`
calls out on line 3 and updates state on line 4, and the (unguarded)
reentrancy finding appears at line 3. -/
theorem reentrancy_finding_emitted_witness :
    ∃ v ∈ detectVulnerabilities srcScenarioB, v.title = reentrancyTitle ∧
      v.codeContext.lineStart = some 3 ∧
      v.severity =
        (if reentrancyGuard srcScenarioB ((parseFunctions srcScenarioB).getD 0 dfltFn)
         then VulnerabilitySeverity.medium else VulnerabilitySeverity.high) :=
  reentrancy_finding_emitted srcScenarioB ((parseFunctions srcScenarioB).getD 0 dfltFn) 3 4
    (by decide) (by decide) (by decide) (by decide)

/-- C8: no two findings in the returned list share both the same title and
the same `codeContext.lineStart`. -/
theorem findings_dedup_invariant (code : Str) :
    (detectVulnerabilities code).Pairwise dedupRel := by
  unfold detectVulnerabilities
  by_cases he : (detectedFindings code).isEmpty
  · rw [if_pos he]
    simp
  · rw [if_neg he]
    exact detected_pairwise code

end SafeContract
